import Mathlib

set_option maxHeartbeats 1000000
set_option maxRecDepth 4000

/-!
Verification development for the `yal` interpreter (a minimal Lisp):
a shallow embedding of `src/ast.rs`, `src/evaluator.rs`, `src/std_lib.rs`,
`src/reader.rs` and the driver `src/main.rs`, followed by theorems about
the evaluator, the standard library, the reader and the printer.

Modelling conventions:
* `f64` is modelled by `F64`: exact rationals extended with the IEEE special
  values `nan`, `inf`, `negInf`.  Rounding is not modelled (every numeric
  literal the reader accepts is a small integer, see `parse_atom`), but the
  IEEE comparison rules (`nan ≠ nan`) and the zero-denominator special cases
  of division are.  The sign of zero is not modelled.
* `Rc` allocations are modelled by tagging each owned value with an address
  drawn from an allocation counter threaded through the environment
  (`next_addr`); `Rc::clone` keeps the address, every `RefVal::owned(..)`
  site in the source allocates a fresh one.  `Rc::as_ptr` equality becomes
  address equality; the three `lazy_static` singletons of `std_lib.rs` are
  the `StaticVal` constructors, `&'static Value` borrows carry the
  constructor they point to.
* `HashMap<String, Vec<RefVal>>` is modelled by an association list with
  the usual extensional operations; a `Vec` used as a stack is modelled by
  a `List` whose head is the stack top.
* Run-time panics (`Option::unwrap` on an empty value stack, the
  `split_off` underflow, the assertion in `unbind_var`) and fuel exhaustion
  of the interpreter are modelled as `none`; every theorem below is
  conditioned on a `some` result.
* Native functions are `fn` pointers in the source; here they are the
  `Native` tags, dispatched by `nativeImpl` (the model of calling the
  stored pointer).  `register_var` in `std_lib.rs` is the binding
  operation `Environment::bind_var` of `evaluator.rs` (the only insertion
  operation the environment offers).
* `print` writes to stdout; the output text is not modelled, only the
  returned `Nil` reference.
-/

namespace Yal

/-- IEEE double (`f64`): exact rationals plus the special values. -/
inductive F64 where
  | num (q : ℚ)
  | nan
  | inf
  | negInf
deriving DecidableEq

/-- Rust `f64::eq` (`==`): `nan` compares unequal to everything. -/
def F64.beq : F64 → F64 → Bool
  | .num a, .num b => a = b
  | .inf, .inf => true
  | .negInf, .negInf => true
  | _, _ => false

/-- Rust `f64` addition (special values per IEEE, rounding not modelled). -/
def F64.add : F64 → F64 → F64
  | .nan, _ => .nan
  | _, .nan => .nan
  | .inf, .negInf => .nan
  | .negInf, .inf => .nan
  | .inf, _ => .inf
  | _, .inf => .inf
  | .negInf, _ => .negInf
  | _, .negInf => .negInf
  | .num a, .num b => .num (a + b)

/-- Rust `f64` subtraction. -/
def F64.sub : F64 → F64 → F64
  | .nan, _ => .nan
  | _, .nan => .nan
  | .inf, .inf => .nan
  | .negInf, .negInf => .nan
  | .inf, _ => .inf
  | .negInf, _ => .negInf
  | _, .inf => .negInf
  | _, .negInf => .inf
  | .num a, .num b => .num (a - b)

/-- Rust `f64` multiplication (`inf * 0` is `nan`). -/
def F64.mul : F64 → F64 → F64
  | .nan, _ => .nan
  | _, .nan => .nan
  | .inf, .num b => if b = 0 then .nan else if b > 0 then .inf else .negInf
  | .num a, .inf => if a = 0 then .nan else if a > 0 then .inf else .negInf
  | .negInf, .num b => if b = 0 then .nan else if b > 0 then .negInf else .inf
  | .num a, .negInf => if a = 0 then .nan else if a > 0 then .negInf else .inf
  | .inf, .inf => .inf
  | .negInf, .negInf => .inf
  | .inf, .negInf => .negInf
  | .negInf, .inf => .negInf
  | .num a, .num b => .num (a * b)

/-- Rust `f64` division (`0/0` is `nan`, `x/0` is a signed infinity). -/
def F64.div : F64 → F64 → F64
  | .nan, _ => .nan
  | _, .nan => .nan
  | .inf, .inf => .nan
  | .inf, .negInf => .nan
  | .negInf, .inf => .nan
  | .negInf, .negInf => .nan
  | .inf, .num b => if b < 0 then .negInf else .inf
  | .negInf, .num b => if b < 0 then .inf else .negInf
  | .num _, .inf => .num 0
  | .num _, .negInf => .num 0
  | .num a, .num b =>
    if b = 0 then
      if a = 0 then .nan else if a > 0 then .inf else .negInf
    else .num (a / b)

/-- Is this the `nan` value. -/
def F64.isNan : F64 → Bool
  | .nan => true
  | _ => false

mutual
/-- `ast.rs` `Atom`: the leaves of a symbolic expression. -/
inductive Atom where
  | string (s : String)
  | number (n : F64)
  | quote (e : SExpr)
  | ident (s : String)

/-- `ast.rs` `SExpr`: an atom or a `VecDeque` list. -/
inductive SExpr where
  | atom (a : Atom)
  | list (es : List SExpr)
end

mutual
/-- Rust derived `PartialEq` on `Atom` (numbers compare with `f64::eq`). -/
def Atom.beq : Atom → Atom → Bool
  | .string a, .string b => a = b
  | .number a, .number b => F64.beq a b
  | .quote a, .quote b => SExpr.beq a b
  | .ident a, .ident b => a = b
  | _, _ => false

/-- Rust derived `PartialEq` on `SExpr`. -/
def SExpr.beq : SExpr → SExpr → Bool
  | .atom a, .atom b => Atom.beq a b
  | .list a, .list b => SExpr.listBeq a b
  | _, _ => false

/-- Elementwise `PartialEq` on the lists inside `SExpr::List`. -/
def SExpr.listBeq : List SExpr → List SExpr → Bool
  | [], [] => true
  | a :: as_, b :: bs => SExpr.beq a b && SExpr.listBeq as_ bs
  | _, _ => false
end

mutual
/-- No `nan` literal occurs anywhere in the atom. -/
def Atom.nanFree : Atom → Bool
  | .string _ => true
  | .number n => !n.isNan
  | .quote e => SExpr.nanFree e
  | .ident _ => true

/-- No `nan` literal occurs anywhere in the expression. -/
def SExpr.nanFree : SExpr → Bool
  | .atom a => Atom.nanFree a
  | .list es => SExpr.listNanFree es

/-- No `nan` literal occurs in any element of the list. -/
def SExpr.listNanFree : List SExpr → Bool
  | [] => true
  | e :: es => SExpr.nanFree e && SExpr.listNanFree es
end

/-- The native routines of `std_lib.rs`; in the source these are the `fn`
pointers stored in `Function::Lib`. -/
inductive Native where
  | nLet
  | nFn
  | nIf
  | nEval
  | nCons
  | nCar
  | nCdr
  | nEq
  | nAdd
  | nSub
  | nMul
  | nDiv
  | nPrint
deriving DecidableEq

/-- `ast.rs` `Function`: user-defined or a library native. -/
inductive Function where
  | userDefined (argNames : List String) (body : SExpr)
  | lib (name : String) (native : Native) (arity : Nat)

/-- `Function::arity`. -/
def Function.arity : Function → Nat
  | .userDefined argNames _ => argNames.length
  | .lib _ _ arity => arity

/-- `ast.rs` `Value`. -/
inductive Value where
  | string (s : String)
  | number (n : F64)
  | quote (e : SExpr)
  | function (f : Function)

/-- `Value::get_type`. -/
def Value.get_type : Value → String
  | .string _ => "string"
  | .number _ => "number"
  | .quote _ => "quote"
  | .function _ => "function"

/-- The three `lazy_static` singletons of `std_lib.rs` (`TRUE`, `FALSE`,
`NIL`); a `RefVal::Borrowed` points at exactly one of them, so pointer
comparison against `false_ref()` / `nil_ref()` is comparison of these
tags. -/
inductive StaticVal where
  | sTrue
  | sFalse
  | sNil
deriving DecidableEq

/-- The `Value` each static points at. -/
def StaticVal.val : StaticVal → Value
  | .sTrue => .quote (.atom (.ident "true"))
  | .sFalse => .quote (.atom (.ident "false"))
  | .sNil => .quote (.atom (.ident "nil"))

/-- `ast.rs` `RefVal`: a borrow of a static or an `Rc` allocation (the
address models `Rc::as_ptr`; clones keep it). -/
inductive RefVal where
  | borrowed (s : StaticVal)
  | owned (addr : Nat) (v : Value)

/-- `RefVal::deref` / `Borrow<Value>`. -/
def RefVal.deref : RefVal → Value
  | .borrowed s => s.val
  | .owned _ v => v

/-- `RefVal::as_ptr` equality: same static, or same `Rc` allocation; a
static and a heap allocation never share an address. -/
def RefVal.addrEq : RefVal → RefVal → Bool
  | .borrowed a, .borrowed b => a = b
  | .owned a _, .owned b _ => a = b
  | _, _ => false

/-- Runtime errors (`String` messages in the source); one constructor per
`format!` site, carrying the interpolated data. -/
inductive Err where
  | notDefined (name : String)
  | emptyList
  | arityMismatch (expected got : Nat) (f : Function)
  | notAFunction (v : RefVal)
  | notBound
  | expectedSymbol (v : RefVal)
  | expectedArgs (v : RefVal)
  | expectedArgName (e : SExpr)
  | expectedBody (v : RefVal)
  | thenNotQuoted (v : RefVal)
  | elseNotQuoted (v : RefVal)
  | expectedExpr (v : RefVal)
  | expectedQuote (v : RefVal)
  | expectedList (v : RefVal)
  | expectedNonEmptyList
  | binOpType (op : String) (lhs rhs : String)

/-- `evaluator.rs` `Environment`: name → stack-of-bindings map, the shared
value stack (head = top), and the allocation counter of the `Rc` model. -/
structure Environment where
  vars : List (String × List RefVal)
  stack : List RefVal
  next_addr : Nat

/-- `HashMap::get` on the association list (first matching key). -/
def varsGet : List (String × List RefVal) → String → Option (List RefVal)
  | [], _ => none
  | (k, e) :: rest, n => if k = n then some e else varsGet rest n

/-- Drop every pair with the given key (keys are unique in practice, so
this coincides with the `HashMap` removal). -/
def varsEraseKey : List (String × List RefVal) → String →
    List (String × List RefVal)
  | [], _ => []
  | (k, e) :: rest, n =>
    if k = n then varsEraseKey rest n else (k, e) :: varsEraseKey rest n

/-- `HashMap::insert` (extensionally: bind the key, keep the rest). -/
def varsSet (vars : List (String × List RefVal)) (n : String)
    (e : List RefVal) : List (String × List RefVal) :=
  (n, e) :: varsEraseKey vars n

/-- `HashMap::remove`. -/
def varsRemove (vars : List (String × List RefVal)) (n : String) :
    List (String × List RefVal) :=
  varsEraseKey vars n

/-- `Environment::new`. -/
def Environment.new : Environment := ⟨[], [], 0⟩

/-- One fresh `Rc` allocation (`RefVal::owned(..)` in the source). -/
def Environment.alloc (env : Environment) (v : Value) :
    RefVal × Environment :=
  (.owned env.next_addr v, { env with next_addr := env.next_addr + 1 })

/-- `Environment::pop_stack`; `none` is the `unwrap` panic on an empty
stack. -/
def Environment.pop_stack (env : Environment) :
    Option (RefVal × Environment) :=
  match env.stack with
  | [] => none
  | v :: rest => some (v, { env with stack := rest })

/-- `Environment::push_stack`. -/
def Environment.push_stack (env : Environment) (v : RefVal) : Environment :=
  { env with stack := v :: env.stack }

/-- `Environment::register_external_fun`: insert a fresh `Lib` binding. -/
def Environment.register_external_fun (env : Environment) (name : String)
    (native : Native) (arity : Nat) : Environment :=
  { env with
    vars :=
      varsSet env.vars name [.owned env.next_addr
        (.function (.lib name native arity))],
    next_addr := env.next_addr + 1 }

/-- `Environment::bind_var`: push onto the name's binding stack (most
recent binding at the head). -/
def Environment.bind_var (env : Environment) (name : String)
    (val : RefVal) : Environment :=
  match varsGet env.vars name with
  | some entry =>
    { env with vars := varsSet env.vars name (val :: entry) }
  | none => { env with vars := varsSet env.vars name [val] }

/-- `Environment::unbind_var`: pop the most recent binding, removing the
entry when it empties; `none` models the asserted-unreachable empty-entry
panic, the `Err` case is the "variable not bound" error. -/
def Environment.unbind_var (env : Environment) (name : String) :
    Option (Except Err Environment) :=
  match varsGet env.vars name with
  | none => some (.error .notBound)
  | some [] => none
  | some [_] =>
    some (.ok { env with vars := varsRemove env.vars name })
  | some (_ :: v :: rest) =>
    some (.ok { env with vars := varsSet env.vars name (v :: rest) })

/-- `Environment::lookup_var`: the most recent binding of the name. -/
def Environment.lookup_var (env : Environment) (name : String) :
    Option RefVal :=
  (varsGet env.vars name).bind List.head?

/-- Result of one evaluation: `none` for a panic or fuel exhaustion,
otherwise the `Result` together with the mutated environment. -/
abbrev EvalRes := Option (Except Err RefVal × Environment)

/-- Bool→RefVal conversion of `std_lib.rs` (`impl Into<RefVal> for bool`):
a borrow of the `TRUE` / `FALSE` static. -/
def boolToRefVal : Bool → RefVal
  | true => .borrowed .sTrue
  | false => .borrowed .sFalse

/-- `std_lib.rs` `let_impl`. -/
def let_impl (env : Environment) : EvalRes :=
  match env.pop_stack with
  | none => none
  | some (val, env) =>
    match env.pop_stack with
    | none => none
    | some (name, env) =>
      match name.deref with
      | .quote (.atom (.ident n)) =>
        some (.ok val, env.bind_var n val)
      | _ => some (.error (.expectedSymbol name), env)

/-- The argument-name loop of `fn_impl`: every element must be an `Ident`
atom. -/
def identNames : List SExpr → Except SExpr (List String)
  | [] => .ok []
  | .atom (.ident s) :: rest =>
    match identNames rest with
    | .ok names => .ok (s :: names)
    | .error e => .error e
  | e :: _ => .error e

/-- `std_lib.rs` `fn_impl`. -/
def fn_impl (env : Environment) : EvalRes :=
  match env.pop_stack with
  | none => none
  | some (body, env) =>
    match env.pop_stack with
    | none => none
    | some (args, env) =>
      match args.deref with
      | .quote (.list argList) =>
        match identNames argList with
        | .error e => some (.error (.expectedArgName e), env)
        | .ok argNames =>
          match body.deref with
          | .quote b =>
            let (r, env) := env.alloc (.function (.userDefined argNames b))
            some (.ok r, env)
          | _ => some (.error (.expectedBody body), env)
      | _ => some (.error (.expectedArgs args), env)

/-- `std_lib.rs` `if_impl`, parameterised by the evaluator it recurses
into: the else branch runs exactly when the condition is a borrow of the
`FALSE` or `NIL` static. -/
def if_impl (ev : SExpr → Environment → EvalRes) (env : Environment) :
    EvalRes :=
  match env.pop_stack with
  | none => none
  | some (else_branch, env) =>
    match env.pop_stack with
    | none => none
    | some (then_branch, env) =>
      match env.pop_stack with
      | none => none
      | some (cond, env) =>
        match then_branch.deref with
        | .quote thenq =>
          match else_branch.deref with
          | .quote elseq =>
            match cond with
            | .borrowed .sFalse => ev elseq env
            | .borrowed .sNil => ev elseq env
            | _ => ev thenq env
          | _ => some (.error (.elseNotQuoted else_branch), env)
        | _ => some (.error (.thenNotQuoted then_branch), env)

/-- `std_lib.rs` `eval_impl`. -/
def eval_impl (ev : SExpr → Environment → EvalRes) (env : Environment) :
    EvalRes :=
  match env.pop_stack with
  | none => none
  | some (expr, env) =>
    match expr.deref with
    | .quote q => ev q env
    | _ => some (.error (.expectedExpr expr), env)

/-- `std_lib.rs` `cons_impl`: prepend a quoted head to a quoted list. -/
def cons_impl (env : Environment) : EvalRes :=
  match env.pop_stack with
  | none => none
  | some (tail, env) =>
    match env.pop_stack with
    | none => none
    | some (head, env) =>
      match head.deref with
      | .quote h =>
        match tail.deref with
        | .quote (.list t) =>
          let (r, env) := env.alloc (.quote (.list (h :: t)))
          some (.ok r, env)
        | _ => some (.error (.expectedQuote tail), env)
      | _ => some (.error (.expectedQuote head), env)

/-- `std_lib.rs` `car_impl`. -/
def car_impl (env : Environment) : EvalRes :=
  match env.pop_stack with
  | none => none
  | some (list, env) =>
    match list.deref with
    | .quote (.list l) =>
      match l with
      | [] => some (.error .expectedNonEmptyList, env)
      | x :: _ =>
        let (r, env) := env.alloc (.quote x)
        some (.ok r, env)
    | _ => some (.error (.expectedList list), env)

/-- `std_lib.rs` `cdr_impl`. -/
def cdr_impl (env : Environment) : EvalRes :=
  match env.pop_stack with
  | none => none
  | some (list, env) =>
    match list.deref with
    | .quote (.list l) =>
      match l with
      | [] => some (.error .expectedNonEmptyList, env)
      | _ :: t =>
        let (r, env) := env.alloc (.quote (.list t))
        some (.ok r, env)
    | _ => some (.error (.expectedList list), env)

/-- The match of `std_lib.rs` `eq`: numbers by `f64::eq`, strings by
content, quotes by structural `PartialEq`, functions by `as_ptr`
identity, everything else false. -/
def eqVal (lhs rhs : RefVal) : Bool :=
  match lhs.deref, rhs.deref with
  | .string a, .string b => a = b
  | .number a, .number b => F64.beq a b
  | .quote a, .quote b => SExpr.beq a b
  | .function _, .function _ => RefVal.addrEq lhs rhs
  | _, _ => false

/-- `std_lib.rs` `eq` (registered for both `=` and `eq`). -/
def eq (env : Environment) : EvalRes :=
  match env.pop_stack with
  | none => none
  | some (rhs, env) =>
    match env.pop_stack with
    | none => none
    | some (lhs, env) =>
      some (.ok (boolToRefVal (eqVal lhs rhs)), env)

/-- The `impl_bin_op!` template of `std_lib.rs`. -/
def binOp (op : String) (f : F64 → F64 → F64) (env : Environment) :
    EvalRes :=
  match env.pop_stack with
  | none => none
  | some (rhs, env) =>
    match env.pop_stack with
    | none => none
    | some (lhs, env) =>
      match lhs.deref, rhs.deref with
      | .number a, .number b =>
        let (r, env) := env.alloc (.number (f a b))
        some (.ok r, env)
      | _, _ =>
        some (.error (.binOpType op lhs.deref.get_type rhs.deref.get_type),
          env)

/-- `std_lib.rs` `add`. -/
def add (env : Environment) : EvalRes := binOp "+" F64.add env

/-- `std_lib.rs` `sub`. -/
def sub (env : Environment) : EvalRes := binOp "-" F64.sub env

/-- `std_lib.rs` `mul`. -/
def mul (env : Environment) : EvalRes := binOp "*" F64.mul env

/-- `std_lib.rs` `div`. -/
def div (env : Environment) : EvalRes := binOp "/" F64.div env

/-- `std_lib.rs` `print_impl` (stdout text not modelled). -/
def print_impl (env : Environment) : EvalRes :=
  match env.pop_stack with
  | none => none
  | some (_, env) => some (.ok (.borrowed .sNil), env)

/-- Dispatch on the stored native pointer (`(*ptr)(env)` in `call`). -/
def nativeImpl (ev : SExpr → Environment → EvalRes) :
    Native → Environment → EvalRes
  | .nLet, env => let_impl env
  | .nFn, env => fn_impl env
  | .nIf, env => if_impl ev env
  | .nEval, env => eval_impl ev env
  | .nCons, env => cons_impl env
  | .nCar, env => car_impl env
  | .nCdr, env => cdr_impl env
  | .nEq, env => eq env
  | .nAdd, env => add env
  | .nSub, env => sub env
  | .nMul, env => mul env
  | .nDiv, env => div env
  | .nPrint, env => print_impl env

/-- How many values each native pops from the shared stack. -/
def nativeArity : Native → Nat
  | .nLet => 2
  | .nFn => 2
  | .nIf => 3
  | .nEval => 1
  | .nCons => 2
  | .nCar => 1
  | .nCdr => 1
  | .nEq => 2
  | .nAdd => 2
  | .nSub => 2
  | .nMul => 2
  | .nDiv => 2
  | .nPrint => 1

/-- The `for (name, val) in arg_names.iter().zip(args)` loop of `call`. -/
def bindArgs : List String → List RefVal → Environment → Environment
  | [], _, env => env
  | _ :: _, [], env => env
  | n :: ns, v :: vs, env => bindArgs ns vs (env.bind_var n v)

/-- The `for name in arg_names` unbind loop of `call`; on error the
environment is left exactly as the failing step found it. -/
def unbindAll : List String → Environment → Option (Except Err Unit × Environment)
  | [], env => some (.ok (), env)
  | n :: ns, env =>
    match env.unbind_var n with
    | none => none
    | some (.error e) => some (.error e, env)
    | some (.ok env) => unbindAll ns env

/-- `evaluator.rs` `call`, parameterised by the evaluator used for the
body (the mutual recursion is closed by `evaluate` below).  A user-defined
call splits the top `arity` values off the stack (`none` models the
`split_off` underflow panic), binds them in push order, evaluates the
body, and unbinds the parameter names only on success. -/
def call (ev : SExpr → Environment → EvalRes) (func : Function)
    (env : Environment) : EvalRes :=
  match func with
  | .userDefined argNames body =>
    if argNames.length ≤ env.stack.length then
      let args := (env.stack.take argNames.length).reverse
      let env1 := { env with stack := env.stack.drop argNames.length }
      let env2 := bindArgs argNames args env1
      match ev body env2 with
      | none => none
      | some (.error e, envb) => some (.error e, envb)
      | some (.ok retr, envb) =>
        match unbindAll argNames envb with
        | none => none
        | some (.error e, envf) => some (.error e, envf)
        | some (.ok _, envf) => some (.ok retr, envf)
    else none
  | .lib _ native _ => nativeImpl ev native env

/-- The `elements.into_iter().map(|e| evaluate(e, env)).collect::<Result>`
of `evaluate`, parameterised by the evaluator: left to right, first error
wins. -/
def evalListWith (ev : SExpr → Environment → EvalRes) :
    List SExpr → Environment → Option (Except Err (List RefVal) × Environment)
  | [], env => some (.ok [], env)
  | e :: es, env =>
    match ev e env with
    | none => none
    | some (.error err, env) => some (.error err, env)
    | some (.ok v, env) =>
      match evalListWith ev es env with
      | none => none
      | some (.error err, env) => some (.error err, env)
      | some (.ok vs, env) => some (.ok (v :: vs), env)

/-- `evaluator.rs` `evaluate`, with a fuel bound on recursion depth.  For
a list, every element (the function position first) is evaluated before
anything else happens; only after the arity check do the operand results
reach the shared stack. -/
def evaluate : Nat → SExpr → Environment → EvalRes
  | 0, _, _ => none
  | _ + 1, .atom a, env =>
    match a with
    | .ident i =>
      match env.lookup_var i with
      | some v => some (.ok v, env)
      | none => some (.error (.notDefined i), env)
    | .string s =>
      let (r, env) := env.alloc (.string s)
      some (.ok r, env)
    | .number n =>
      let (r, env) := env.alloc (.number n)
      some (.ok r, env)
    | .quote q =>
      let (r, env) := env.alloc (.quote q)
      some (.ok r, env)
  | fuel + 1, .list elements, env =>
    match evalListWith (evaluate fuel) elements env with
    | none => none
    | some (.error e, env) => some (.error e, env)
    | some (.ok values, env) =>
      match values.head? with
      | none => some (.error .emptyList, env)
      | some fun_ =>
        match fun_.deref with
        | .function f =>
          if f.arity ≠ values.length - 1 then
            some (.error (.arityMismatch f.arity (values.length - 1) f), env)
          else
            let env := { env with
              stack := (values.drop 1).reverse ++ env.stack }
            call (evaluate fuel) f env
        | _ => some (.error (.notAFunction fun_), env)

/-- The environment `main.rs` seeds before evaluating the file: the
fourteen `register_external_fun` calls, in source order. -/
def mkEnv : Environment :=
  Environment.new
    |>.register_external_fun "let" .nLet 2
    |>.register_external_fun "fn" .nFn 2
    |>.register_external_fun "if" .nIf 3
    |>.register_external_fun "eval" .nEval 1
    |>.register_external_fun "cons" .nCons 2
    |>.register_external_fun "car" .nCar 1
    |>.register_external_fun "cdr" .nCdr 1
    |>.register_external_fun "=" .nEq 2
    |>.register_external_fun "eq" .nEq 2
    |>.register_external_fun "+" .nAdd 2
    |>.register_external_fun "-" .nSub 2
    |>.register_external_fun "*" .nMul 2
    |>.register_external_fun "/" .nDiv 2
    |>.register_external_fun "print" .nPrint 1

end Yal

namespace Yal

/-! ## Well-formedness

The only constructor site of `Function::Lib` is `register_external_fun` in
`main.rs`, where the stored arity always equals the number of values the
routine pops.  `EnvWfB` packages that fact for every value reachable from
an environment; it is preserved by evaluation and holds of `mkEnv`. -/

/-- A `Lib` record's stored arity matches what its routine pops. -/
def FunctionWfB : Function → Bool
  | .userDefined _ _ => true
  | .lib _ n a => a = nativeArity n

/-- Functions inside the value are well formed. -/
def ValueWfB : Value → Bool
  | .function f => FunctionWfB f
  | _ => true

/-- Functions inside the reference are well formed. -/
def RefValWfB : RefVal → Bool
  | .borrowed _ => true
  | .owned _ v => ValueWfB v

/-- Every value in the binding map is well formed. -/
def VarsWf (vars : List (String × List RefVal)) : Prop :=
  ∀ p ∈ vars, ∀ v ∈ p.2, RefValWfB v = true

/-- Every value on the stack is well formed. -/
def StackWf (st : List RefVal) : Prop :=
  ∀ v ∈ st, RefValWfB v = true

/-- Every value reachable from the environment is well formed. -/
def EnvWf (env : Environment) : Prop :=
  VarsWf env.vars ∧ StackWf env.stack

/-- Successful results carry well-formed values. -/
def ResWf (r : Except Err RefVal) : Prop :=
  ∀ v, r = .ok v → RefValWfB v = true

theorem resWf_error (e : Err) : ResWf (.error e) := by
  intro v h; cases h

theorem varsGet_mem {vars : List (String × List RefVal)} {n : String}
    {e : List RefVal} (h : varsGet vars n = some e) : (n, e) ∈ vars := by
  induction vars with
  | nil => cases h
  | cons p rest ih =>
    rw [varsGet] at h
    split at h
    · rename_i hk
      cases h
      rw [← hk]
      exact List.mem_cons_self _ _
    · exact List.mem_cons_of_mem _ (ih h)

theorem mem_varsEraseKey {vars : List (String × List RefVal)} {n : String}
    {p : String × List RefVal} (h : p ∈ varsEraseKey vars n) : p ∈ vars := by
  induction vars with
  | nil => cases h
  | cons q rest ih =>
    obtain ⟨k0, e0⟩ := q
    rw [varsEraseKey] at h
    split at h
    · exact List.mem_cons_of_mem _ (ih h)
    · rcases List.mem_cons.mp h with h | h
      · subst h; exact List.mem_cons_self _ _
      · exact List.mem_cons_of_mem _ (ih h)

theorem varsWf_varsSet {vars : List (String × List RefVal)} {n : String}
    {e : List RefVal} (hv : VarsWf vars)
    (he : ∀ v ∈ e, RefValWfB v = true) : VarsWf (varsSet vars n e) := by
  intro p hp
  rcases List.mem_cons.mp hp with h | h
  · subst h; exact he
  · exact hv p (mem_varsEraseKey h)

theorem varsWf_varsRemove {vars : List (String × List RefVal)} {n : String}
    (hv : VarsWf vars) : VarsWf (varsRemove vars n) :=
  fun p hp => hv p (mem_varsEraseKey hp)

theorem lookup_var_wf {env : Environment} {n : String} {v : RefVal}
    (hw : EnvWf env) (h : env.lookup_var n = some v) :
    RefValWfB v = true := by
  rw [Environment.lookup_var] at h
  cases hg : varsGet env.vars n with
  | none => rw [hg] at h; cases h
  | some e =>
    rw [hg] at h
    cases e with
    | nil => cases h
    | cons x rest =>
      simp only [Option.bind_some, List.head?] at h
      cases h
      exact hw.1 _ (varsGet_mem hg) _ (List.mem_cons_self _ _)

theorem envWf_bind_var {env : Environment} {n : String} {v : RefVal}
    (hw : EnvWf env) (hv : RefValWfB v = true) :
    EnvWf (env.bind_var n v) := by
  rw [Environment.bind_var]
  cases hg : varsGet env.vars n with
  | none =>
    refine ⟨varsWf_varsSet hw.1 ?_, hw.2⟩
    intro x hx
    rcases List.mem_singleton.mp hx with h
    subst h; exact hv
  | some entry =>
    refine ⟨varsWf_varsSet hw.1 ?_, hw.2⟩
    intro x hx
    rcases List.mem_cons.mp hx with h | h
    · subst h; exact hv
    · exact hw.1 _ (varsGet_mem hg) _ h

theorem envWf_unbind_var {env env' : Environment} {n : String}
    (hw : EnvWf env) (h : env.unbind_var n = some (.ok env')) :
    EnvWf env' := by
  rw [Environment.unbind_var] at h
  cases hg : varsGet env.vars n with
  | none => rw [hg] at h; cases h
  | some entry =>
    rw [hg] at h
    match entry with
    | [] => cases h
    | [x] =>
      cases h
      exact ⟨varsWf_varsRemove hw.1, hw.2⟩
    | x :: y :: rest =>
      cases h
      refine ⟨varsWf_varsSet hw.1 ?_, hw.2⟩
      intro u hu
      exact hw.1 _ (varsGet_mem hg) _ (List.mem_cons_of_mem _ hu)

theorem envWf_alloc {env : Environment} {v : Value}
    (hw : EnvWf env) (hv : ValueWfB v = true) :
    RefValWfB (env.alloc v).1 = true ∧ EnvWf (env.alloc v).2 ∧
      (env.alloc v).2.stack = env.stack := by
  exact ⟨hv, ⟨hw.1, hw.2⟩, rfl⟩

/-- Shape of a successful `pop_stack`. -/
theorem pop_stack_eq {env : Environment} {v : RefVal} {env' : Environment}
    (h : env.pop_stack = some (v, env')) :
    env.stack = v :: env'.stack ∧ env'.vars = env.vars ∧
      env'.next_addr = env.next_addr := by
  rw [Environment.pop_stack] at h
  cases hs : env.stack with
  | nil => rw [hs] at h; cases h
  | cons x rest => rw [hs] at h; cases h; exact ⟨rfl, rfl, rfl⟩

end Yal

namespace Yal

/-- Binding a variable never touches the stack or the counter. -/
theorem bind_var_stack (env : Environment) (n : String) (v : RefVal) :
    (env.bind_var n v).stack = env.stack ∧
      (env.bind_var n v).next_addr = env.next_addr := by
  rw [Environment.bind_var]
  cases varsGet env.vars n <;> exact ⟨rfl, rfl⟩

/-- Unbinding a variable never touches the stack or the counter. -/
theorem unbind_var_stack {env env' : Environment} {n : String}
    (h : env.unbind_var n = some (.ok env')) :
    env'.stack = env.stack ∧ env'.next_addr = env.next_addr := by
  rw [Environment.unbind_var] at h
  cases hg : varsGet env.vars n with
  | none => rw [hg] at h; cases h
  | some entry =>
    rw [hg] at h
    match entry with
    | [] => cases h
    | [x] => cases h; exact ⟨rfl, rfl⟩
    | x :: y :: rest => cases h; exact ⟨rfl, rfl⟩

theorem stackWf_cons {v : RefVal} {st : List RefVal} (h : StackWf (v :: st)) :
    RefValWfB v = true ∧ StackWf st :=
  ⟨h v (List.mem_cons_self _ _), fun u hu => h u (List.mem_cons_of_mem _ hu)⟩

/-- Behaviour contract of a (fuel-instantiated) evaluator: it preserves
the stack, well-formedness, and returns well-formed values. -/
def EvOk (ev : SExpr → Environment → EvalRes) : Prop :=
  ∀ e env r env', EnvWf env → ev e env = some (r, env') →
    env'.stack = env.stack ∧ EnvWf env' ∧ ResWf r

/-- Behaviour contract of a native routine popping `n` operands: it pops
exactly `n` values (so `n` were available), preserves well-formedness and
returns well-formed values. -/
def InvAt (n : Nat) (f : Environment → EvalRes) : Prop :=
  ∀ env r env', EnvWf env → f env = some (r, env') →
    env'.stack = env.stack.drop n ∧ n ≤ env.stack.length ∧ EnvWf env' ∧ ResWf r

theorem let_impl_inv : InvAt 2 let_impl := by
  intro env r env' hw h
  match hs : env.stack with
  | [] => rw [let_impl, Environment.pop_stack, hs] at h; cases h
  | [a] => rw [let_impl, Environment.pop_stack, hs] at h; simp [Environment.pop_stack] at h
  | a :: b :: rest =>
    rw [let_impl, Environment.pop_stack, hs] at h
    simp only [Environment.pop_stack] at h
    obtain ⟨ha, hrest⟩ := stackWf_cons (hs ▸ hw.2)
    obtain ⟨hb, hrest⟩ := stackWf_cons hrest
    have hw2 : EnvWf { env with stack := rest } := ⟨hw.1, hrest⟩
    split at h
    · cases h
      refine ⟨((bind_var_stack _ _ _).1), by simp [hs], envWf_bind_var hw2 ha, ?_⟩
      intro v hv; cases hv; exact ha
    · cases h
      exact ⟨rfl, by simp [hs], hw2, resWf_error _⟩

theorem fn_impl_inv : InvAt 2 fn_impl := by
  intro env r env' hw h
  match hs : env.stack with
  | [] => rw [fn_impl, Environment.pop_stack, hs] at h; cases h
  | [a] => rw [fn_impl, Environment.pop_stack, hs] at h; simp [Environment.pop_stack] at h
  | a :: b :: rest =>
    rw [fn_impl, Environment.pop_stack, hs] at h
    simp only [Environment.pop_stack] at h
    obtain ⟨ha, hrest⟩ := stackWf_cons (hs ▸ hw.2)
    obtain ⟨hb, hrest⟩ := stackWf_cons hrest
    have hw2 : EnvWf { env with stack := rest } := ⟨hw.1, hrest⟩
    split at h
    · split at h
      · cases h
        exact ⟨rfl, by simp [hs], hw2, resWf_error _⟩
      · split at h
        · cases h
          refine ⟨rfl, by simp [hs], hw2, ?_⟩
          intro v hv; cases hv; rfl
        · cases h
          exact ⟨rfl, by simp [hs], hw2, resWf_error _⟩
    · cases h
      exact ⟨rfl, by simp [hs], hw2, resWf_error _⟩

theorem cons_impl_inv : InvAt 2 cons_impl := by
  intro env r env' hw h
  match hs : env.stack with
  | [] => rw [cons_impl, Environment.pop_stack, hs] at h; cases h
  | [a] => rw [cons_impl, Environment.pop_stack, hs] at h; simp [Environment.pop_stack] at h
  | a :: b :: rest =>
    rw [cons_impl, Environment.pop_stack, hs] at h
    simp only [Environment.pop_stack] at h
    obtain ⟨ha, hrest⟩ := stackWf_cons (hs ▸ hw.2)
    obtain ⟨hb, hrest⟩ := stackWf_cons hrest
    have hw2 : EnvWf { env with stack := rest } := ⟨hw.1, hrest⟩
    split at h
    · split at h
      · cases h
        refine ⟨rfl, by simp [hs], hw2, ?_⟩
        intro v hv; cases hv; rfl
      · cases h
        exact ⟨rfl, by simp [hs], hw2, resWf_error _⟩
    · cases h
      exact ⟨rfl, by simp [hs], hw2, resWf_error _⟩

theorem car_impl_inv : InvAt 1 car_impl := by
  intro env r env' hw h
  match hs : env.stack with
  | [] => rw [car_impl, Environment.pop_stack, hs] at h; cases h
  | a :: rest =>
    simp only [car_impl, Environment.pop_stack, hs] at h
    obtain ⟨ha, hrest⟩ := stackWf_cons (hs ▸ hw.2)
    have hw2 : EnvWf { env with stack := rest } := ⟨hw.1, hrest⟩
    split at h
    · split at h
      · cases h
        exact ⟨rfl, by simp [hs], hw2, resWf_error _⟩
      · cases h
        refine ⟨rfl, by simp [hs], hw2, ?_⟩
        intro v hv; cases hv; rfl
    · cases h
      exact ⟨rfl, by simp [hs], hw2, resWf_error _⟩

theorem cdr_impl_inv : InvAt 1 cdr_impl := by
  intro env r env' hw h
  match hs : env.stack with
  | [] => rw [cdr_impl, Environment.pop_stack, hs] at h; cases h
  | a :: rest =>
    simp only [cdr_impl, Environment.pop_stack, hs] at h
    obtain ⟨ha, hrest⟩ := stackWf_cons (hs ▸ hw.2)
    have hw2 : EnvWf { env with stack := rest } := ⟨hw.1, hrest⟩
    split at h
    · split at h
      · cases h
        exact ⟨rfl, by simp [hs], hw2, resWf_error _⟩
      · cases h
        refine ⟨rfl, by simp [hs], hw2, ?_⟩
        intro v hv; cases hv; rfl
    · cases h
      exact ⟨rfl, by simp [hs], hw2, resWf_error _⟩

theorem eq_inv : InvAt 2 eq := by
  intro env r env' hw h
  match hs : env.stack with
  | [] => rw [eq, Environment.pop_stack, hs] at h; cases h
  | [a] => rw [eq, Environment.pop_stack, hs] at h; simp [Environment.pop_stack] at h
  | a :: b :: rest =>
    rw [eq, Environment.pop_stack, hs] at h
    simp only [Environment.pop_stack] at h
    obtain ⟨ha, hrest⟩ := stackWf_cons (hs ▸ hw.2)
    obtain ⟨hb, hrest⟩ := stackWf_cons hrest
    cases h
    refine ⟨rfl, by simp [hs], ⟨hw.1, hrest⟩, ?_⟩
    intro v hv; cases hv
    cases eqVal b a <;> rfl

theorem binOp_inv (op : String) (f : F64 → F64 → F64) :
    InvAt 2 (binOp op f) := by
  intro env r env' hw h
  match hs : env.stack with
  | [] => rw [binOp, Environment.pop_stack, hs] at h; cases h
  | [a] => rw [binOp, Environment.pop_stack, hs] at h; simp [Environment.pop_stack] at h
  | a :: b :: rest =>
    rw [binOp, Environment.pop_stack, hs] at h
    simp only [Environment.pop_stack] at h
    obtain ⟨ha, hrest⟩ := stackWf_cons (hs ▸ hw.2)
    obtain ⟨hb, hrest⟩ := stackWf_cons hrest
    have hw2 : EnvWf { env with stack := rest } := ⟨hw.1, hrest⟩
    split at h
    · cases h
      refine ⟨rfl, by simp [hs], hw2, ?_⟩
      intro v hv; cases hv; rfl
    · cases h
      exact ⟨rfl, by simp [hs], hw2, resWf_error _⟩

theorem print_impl_inv : InvAt 1 print_impl := by
  intro env r env' hw h
  match hs : env.stack with
  | [] => rw [print_impl, Environment.pop_stack, hs] at h; cases h
  | a :: rest =>
    simp only [print_impl, Environment.pop_stack, hs] at h
    obtain ⟨ha, hrest⟩ := stackWf_cons (hs ▸ hw.2)
    cases h
    refine ⟨rfl, by simp [hs], ⟨hw.1, hrest⟩, ?_⟩
    intro v hv; cases hv; rfl

end Yal

namespace Yal

theorem if_impl_inv {ev : SExpr → Environment → EvalRes} (hev : EvOk ev) :
    InvAt 3 (if_impl ev) := by
  intro env r env' hw h
  match hs : env.stack with
  | [] => rw [if_impl, Environment.pop_stack, hs] at h; cases h
  | [a] =>
    rw [if_impl, Environment.pop_stack, hs] at h
    simp [Environment.pop_stack] at h
  | [a, b] =>
    rw [if_impl, Environment.pop_stack, hs] at h
    simp [Environment.pop_stack] at h
  | a :: b :: c :: rest =>
    rw [if_impl, Environment.pop_stack, hs] at h
    simp only [Environment.pop_stack] at h
    obtain ⟨ha, hrest⟩ := stackWf_cons (hs ▸ hw.2)
    obtain ⟨hb, hrest⟩ := stackWf_cons hrest
    obtain ⟨hc, hrest⟩ := stackWf_cons hrest
    have hw3 : EnvWf { env with stack := rest } := ⟨hw.1, hrest⟩
    split at h
    · split at h
      · split at h
        · obtain ⟨h1, h2, h3⟩ := hev _ _ _ _ hw3 h
          exact ⟨by simpa [hs] using h1, by simp [hs], h2, h3⟩
        · obtain ⟨h1, h2, h3⟩ := hev _ _ _ _ hw3 h
          exact ⟨by simpa [hs] using h1, by simp [hs], h2, h3⟩
        · obtain ⟨h1, h2, h3⟩ := hev _ _ _ _ hw3 h
          exact ⟨by simpa [hs] using h1, by simp [hs], h2, h3⟩
      · cases h
        exact ⟨rfl, by simp [hs], hw3, resWf_error _⟩
    · cases h
      exact ⟨rfl, by simp [hs], hw3, resWf_error _⟩

theorem eval_impl_inv {ev : SExpr → Environment → EvalRes} (hev : EvOk ev) :
    InvAt 1 (eval_impl ev) := by
  intro env r env' hw h
  match hs : env.stack with
  | [] => rw [eval_impl, Environment.pop_stack, hs] at h; cases h
  | a :: rest =>
    simp only [eval_impl, Environment.pop_stack, hs] at h
    obtain ⟨ha, hrest⟩ := stackWf_cons (hs ▸ hw.2)
    have hw1 : EnvWf { env with stack := rest } := ⟨hw.1, hrest⟩
    split at h
    · obtain ⟨h1, h2, h3⟩ := hev _ _ _ _ hw1 h
      exact ⟨by simpa [hs] using h1, by simp [hs], h2, h3⟩
    · cases h
      exact ⟨rfl, by simp [hs], hw1, resWf_error _⟩

theorem nativeImpl_inv {ev : SExpr → Environment → EvalRes} (hev : EvOk ev)
    (n : Native) : InvAt (nativeArity n) (nativeImpl ev n) := by
  cases n
  case nLet => exact let_impl_inv
  case nFn => exact fn_impl_inv
  case nIf => exact if_impl_inv hev
  case nEval => exact eval_impl_inv hev
  case nCons => exact cons_impl_inv
  case nCar => exact car_impl_inv
  case nCdr => exact cdr_impl_inv
  case nEq => exact eq_inv
  case nAdd => exact binOp_inv _ _
  case nSub => exact binOp_inv _ _
  case nMul => exact binOp_inv _ _
  case nDiv => exact binOp_inv _ _
  case nPrint => exact print_impl_inv

theorem evalListWith_inv {ev : SExpr → Environment → EvalRes}
    (hev : EvOk ev) :
    ∀ es env r env', EnvWf env →
      evalListWith ev es env = some (r, env') →
      env'.stack = env.stack ∧ EnvWf env' ∧
        ∀ vs, r = .ok vs → ∀ v ∈ vs, RefValWfB v = true := by
  intro es
  induction es with
  | nil =>
    intro env r env' hw h
    rw [evalListWith] at h
    cases h
    refine ⟨rfl, hw, ?_⟩
    intro vs hvs v hv
    cases hvs
    cases hv
  | cons e es ih =>
    intro env r env' hw h
    rw [evalListWith] at h
    cases he : ev e env with
    | none => rw [he] at h; cases h
    | some p =>
      obtain ⟨r1, env1⟩ := p
      rw [he] at h
      cases r1 with
      | error err =>
        cases h
        obtain ⟨h1, h2, _⟩ := hev _ _ _ _ hw he
        refine ⟨h1, h2, ?_⟩
        intro vs hvs; cases hvs
      | ok v =>
        obtain ⟨h1, h2, h3⟩ := hev _ _ _ _ hw he
        dsimp only at h
        cases hrest : evalListWith ev es env1 with
        | none => rw [hrest] at h; cases h
        | some q =>
          obtain ⟨r2, env2⟩ := q
          rw [hrest] at h
          cases r2 with
          | error err2 =>
            cases h
            obtain ⟨g1, g2, _⟩ := ih _ _ _ h2 hrest
            refine ⟨g1.trans h1, g2, ?_⟩
            intro vs hvs; cases hvs
          | ok vs =>
            cases h
            obtain ⟨g1, g2, g3⟩ := ih _ _ _ h2 hrest
            refine ⟨g1.trans h1, g2, ?_⟩
            intro ws hws u hu
            cases hws
            rcases List.mem_cons.mp hu with huv | huv
            · subst huv; exact h3 _ rfl
            · exact g3 _ rfl _ huv

/-- Binding a list of well-formed arguments preserves well-formedness
and touches neither the stack nor the counter. -/
theorem bindArgs_inv :
    ∀ (ns : List String) (vs : List RefVal) (env : Environment),
      EnvWf env → (∀ v ∈ vs, RefValWfB v = true) →
      (bindArgs ns vs env).stack = env.stack ∧
        (bindArgs ns vs env).next_addr = env.next_addr ∧
        EnvWf (bindArgs ns vs env) := by
  intro ns
  induction ns with
  | nil => intro vs env hw _; rw [bindArgs]; exact ⟨rfl, rfl, hw⟩
  | cons n ns ih =>
    intro vs env hw hvs
    cases vs with
    | nil => rw [bindArgs]; exact ⟨rfl, rfl, hw⟩
    | cons v vs =>
      rw [bindArgs]
      have hv := hvs v (List.mem_cons_self _ _)
      have hvs' : ∀ u ∈ vs, RefValWfB u = true :=
        fun u hu => hvs u (List.mem_cons_of_mem _ hu)
      obtain ⟨b1, b2⟩ := bind_var_stack env n v
      obtain ⟨c1, c2, c3⟩ := ih vs (env.bind_var n v) (envWf_bind_var hw hv) hvs'
      exact ⟨c1.trans b1, c2.trans b2, c3⟩

/-- The unbind loop preserves the stack and well-formedness. -/
theorem unbindAll_inv :
    ∀ (ns : List String) (env : Environment) (r : Except Err Unit)
      (env' : Environment), EnvWf env →
      unbindAll ns env = some (r, env') →
      env'.stack = env.stack ∧ EnvWf env' := by
  intro ns
  induction ns with
  | nil =>
    intro env r env' hw h
    rw [unbindAll] at h
    cases h
    exact ⟨rfl, hw⟩
  | cons n ns ih =>
    intro env r env' hw h
    rw [unbindAll] at h
    cases hu : env.unbind_var n with
    | none => rw [hu] at h; cases h
    | some res =>
      rw [hu] at h
      cases res with
      | error e => cases h; exact ⟨rfl, hw⟩
      | ok env1 =>
        obtain ⟨g1, g2⟩ := ih env1 _ _ (envWf_unbind_var hw hu) h
        exact ⟨g1.trans (unbind_var_stack hu).1, g2⟩

/-- A well-formed reference holding a function holds a well-formed one
(the statics are all quotes). -/
theorem deref_function_wf {v : RefVal} {f : Function}
    (hv : RefValWfB v = true) (hd : v.deref = .function f) :
    FunctionWfB f = true := by
  cases v with
  | borrowed s => cases s <;> cases hd
  | owned a val =>
    cases val with
    | function g => cases hd; exact hv
    | string s => cases hd
    | number n => cases hd
    | quote q => cases hd

theorem call_inv {ev : SExpr → Environment → EvalRes} (hev : EvOk ev)
    (f : Function) (hf : FunctionWfB f = true) :
    InvAt f.arity (call ev f) := by
  intro env r env' hw h
  cases f with
  | userDefined argNames body =>
    rw [call] at h
    split at h
    · rename_i hlen
      dsimp only at h
      have hargsWf : ∀ v ∈ (env.stack.take argNames.length).reverse,
          RefValWfB v = true := by
        intro v hv
        exact hw.2 v (List.mem_of_mem_take (List.mem_reverse.mp hv))
      have hw1 : EnvWf { env with stack := env.stack.drop argNames.length } :=
        ⟨hw.1, fun v hv => hw.2 v (List.mem_of_mem_drop hv)⟩
      obtain ⟨b1, b2, b3⟩ := bindArgs_inv argNames _ _ hw1 hargsWf
      cases hb : ev body (bindArgs argNames
          (env.stack.take argNames.length).reverse
          { env with stack := env.stack.drop argNames.length }) with
      | none => rw [hb] at h; cases h
      | some p =>
        obtain ⟨rb, envb⟩ := p
        rw [hb] at h
        obtain ⟨e1, e2, e3⟩ := hev _ _ _ _ b3 hb
        cases rb with
        | error e =>
          cases h
          refine ⟨?_, hlen, e2, resWf_error _⟩
          rw [e1, b1]
          simp [Function.arity]
        | ok retr =>
          dsimp only at h
          cases hu : unbindAll argNames envb with
          | none => rw [hu] at h; cases h
          | some q =>
            obtain ⟨ru, envf⟩ := q
            rw [hu] at h
            obtain ⟨u1, u2⟩ := unbindAll_inv argNames _ _ _ e2 hu
            cases ru with
            | error e =>
              cases h
              refine ⟨?_, hlen, u2, resWf_error _⟩
              rw [u1, e1, b1]
              simp [Function.arity]
            | ok _ =>
              cases h
              refine ⟨?_, hlen, u2, ?_⟩
              · rw [u1, e1, b1]
                simp [Function.arity]
              · intro v hv; cases hv; exact e3 _ rfl
    · cases h
  | lib name native arity =>
    rw [call] at h
    have ha : arity = nativeArity native := by
      simpa [FunctionWfB] using hf
    have := nativeImpl_inv hev native env r env' hw h
    rw [Function.arity, ha]
    exact this

/-- The master invariant of the evaluator: whenever `evaluate` returns (a
value or an error), the shared value stack is exactly what it was, well-
formedness is preserved, and any produced value is well formed. -/
theorem evaluate_inv : ∀ fuel, EvOk (evaluate fuel) := by
  intro fuel
  induction fuel with
  | zero => intro e env r env' _ h; cases h
  | succ fuel ih =>
    intro e env r env' hw h
    cases e with
    | atom a =>
      cases a with
      | ident i =>
        rw [evaluate] at h
        cases hl : env.lookup_var i with
        | none =>
          rw [hl] at h
          cases h
          exact ⟨rfl, hw, resWf_error _⟩
        | some v =>
          rw [hl] at h
          cases h
          refine ⟨rfl, hw, ?_⟩
          intro u hu; cases hu; exact lookup_var_wf hw hl
      | string s =>
        rw [evaluate] at h
        cases h
        refine ⟨rfl, hw, ?_⟩
        intro u hu; cases hu; rfl
      | number n =>
        rw [evaluate] at h
        cases h
        refine ⟨rfl, hw, ?_⟩
        intro u hu; cases hu; rfl
      | quote q =>
        rw [evaluate] at h
        cases h
        refine ⟨rfl, hw, ?_⟩
        intro u hu; cases hu; rfl
    | list elements =>
      rw [evaluate] at h
      cases hl : evalListWith (evaluate fuel) elements env with
      | none => rw [hl] at h; cases h
      | some p =>
        obtain ⟨rl, env1⟩ := p
        rw [hl] at h
        cases rl with
        | error e =>
          cases h
          obtain ⟨g1, g2, _⟩ := evalListWith_inv ih elements _ _ _ hw hl
          exact ⟨g1, g2, resWf_error _⟩
        | ok values =>
          obtain ⟨g1, g2, g3⟩ := evalListWith_inv ih elements _ _ _ hw hl
          dsimp only at h
          cases hhd : values.head? with
          | none =>
            rw [hhd] at h
            cases h
            exact ⟨g1, g2, resWf_error _⟩
          | some fun_ =>
            rw [hhd] at h
            dsimp only at h
            have hfunWf : RefValWfB fun_ = true :=
              g3 _ rfl _ (List.mem_of_mem_head? hhd)
            cases hd : fun_.deref with
            | function f =>
              rw [hd] at h
              dsimp only at h
              have hfWf : FunctionWfB f = true := deref_function_wf hfunWf hd
              by_cases harity : f.arity = values.length - 1
              · rw [if_neg (fun hc => hc harity)] at h
                have hlen : ((values.drop 1).reverse).length =
                    f.arity := by
                  simp only [List.length_reverse, List.length_drop]
                  omega
                have hpushWf : StackWf ((values.drop 1).reverse ++ env1.stack) := by
                  intro v hv
                  rcases List.mem_append.mp hv with hv | hv
                  · exact g3 _ rfl _ (List.mem_of_mem_drop
                      (List.mem_reverse.mp hv))
                  · exact g2.2 v hv
                have hw2 : EnvWf { env1 with
                    stack := (values.drop 1).reverse ++ env1.stack } :=
                  ⟨g2.1, hpushWf⟩
                obtain ⟨c1, c2, c3, c4⟩ := call_inv ih f hfWf _ _ _ hw2 h
                refine ⟨?_, c3, c4⟩
                rw [c1]
                simp only [← hlen, List.drop_left]
                rw [g1]
              · rw [if_pos harity] at h
                cases h
                exact ⟨g1, g2, resWf_error _⟩
            | string s =>
              rw [hd] at h; cases h
              exact ⟨g1, g2, resWf_error _⟩
            | number n =>
              rw [hd] at h; cases h
              exact ⟨g1, g2, resWf_error _⟩
            | quote q =>
              rw [hd] at h; cases h
              exact ⟨g1, g2, resWf_error _⟩

end Yal

namespace Yal

/-- The seeded environment of `main.rs` is well formed. -/
theorem mkEnv_wf : EnvWf mkEnv := by
  refine ⟨?_, ?_⟩
  · unfold VarsWf
    decide
  · unfold StackWf
    decide

/-- C4: the shared value stack is balanced around every call — the caller
pushes exactly `arity` operand values and the callee pops exactly that
many — so evaluating any top-level form in a well-formed environment
returns (value or error) with the value stack exactly as it was; a run
started on an empty stack ends on an empty stack. -/
theorem c4_value_stack_balanced :
    (∀ fuel e env r env', EnvWf env →
        evaluate fuel e env = some (r, env') → env'.stack = env.stack)
    ∧ (∀ fuel f env r env', EnvWf env → FunctionWfB f = true →
        call (evaluate fuel) f env = some (r, env') →
          env'.stack = env.stack.drop f.arity ∧
            f.arity ≤ env.stack.length) := by
  constructor
  · intro fuel e env r env' hw h
    exact (evaluate_inv fuel e env r env' hw h).1
  · intro fuel f env r env' hw hf h
    obtain ⟨h1, h2, _, _⟩ := call_inv (evaluate_inv fuel) f hf env r env' hw h
    exact ⟨h1, h2⟩

/-- Concrete program for the C4 witness: the spec scenario `(+ 1 2)`. -/
def c4Prog : SExpr :=
  .list [.atom (.ident "+"), .atom (.number (.num 1)),
    .atom (.number (.num 2))]

/-- The run of `(+ 1 2)` in the seeded environment. -/
def c4Run : Except Err RefVal × Environment :=
  (evaluate 20 c4Prog mkEnv).getD (.error .emptyList, mkEnv)

theorem c4_value_stack_balanced_witness :
    EnvWf mkEnv ∧ c4Run.2.stack = mkEnv.stack :=
  ⟨mkEnv_wf,
    c4_value_stack_balanced.1 20 c4Prog mkEnv c4Run.1 c4Run.2 mkEnv_wf rfl⟩

/-- C3: when the evaluated function position is a `Function` whose arity
differs from the operand count, the application fails with the arity
error citing both counts and the function, the callee is never invoked,
and no operand value reaches the shared stack (which is exactly as
before the form). -/
theorem c3_arity_mismatch_rejects (fuel : Nat) (elems : List SExpr)
    (env env' : Environment) (vals : List RefVal) (v0 : RefVal)
    (f : Function) (hw : EnvWf env)
    (hl : evalListWith (evaluate fuel) elems env = some (.ok vals, env'))
    (hhd : vals.head? = some v0)
    (hf : v0.deref = .function f)
    (hne : f.arity ≠ vals.length - 1) :
    evaluate (fuel + 1) (.list elems) env =
      some (.error (.arityMismatch f.arity (vals.length - 1) f), env')
    ∧ env'.stack = env.stack := by
  constructor
  · rw [evaluate, hl]
    dsimp only
    rw [hhd]
    dsimp only
    rw [hf]
    dsimp only
    rw [if_pos hne]
  · exact (evalListWith_inv (evaluate_inv fuel) elems _ _ _ hw hl).1

/-- Operands of the C3 witness: `(car 1 2)` hands 2 operands to the
1-ary `car`. -/
def c3Elems : List SExpr :=
  [.atom (.ident "car"), .atom (.number (.num 1)), .atom (.number (.num 2))]

/-- The element-evaluation run of the C3 witness. -/
def c3ListRun : Except Err (List RefVal) × Environment :=
  (evalListWith (evaluate 20) c3Elems mkEnv).getD (.ok [], mkEnv)

/-- The evaluated elements of the C3 witness. -/
def c3Vals : List RefVal :=
  match c3ListRun.1 with
  | .ok vs => vs
  | .error _ => []

/-- The head value of the C3 witness (the `car` library function). -/
def c3V0 : RefVal := c3Vals.headD (.borrowed .sNil)

theorem c3_arity_mismatch_rejects_witness :
    evaluate (20 + 1) (.list c3Elems) mkEnv =
      some (.error (.arityMismatch (Function.lib "car" .nCar 1).arity
        (c3Vals.length - 1) (.lib "car" .nCar 1)), c3ListRun.2)
    ∧ c3ListRun.2.stack = mkEnv.stack :=
  c3_arity_mismatch_rejects 20 c3Elems mkEnv c3ListRun.2 c3Vals c3V0
    (.lib "car" .nCar 1) mkEnv_wf rfl rfl rfl (by decide)

/-- C10: evaluating an empty list expression always errors (a list needs
at least one element) and returns the environment — bindings, stack and
allocation counter — untouched. -/
theorem c10_empty_list_is_error (fuel : Nat) (env : Environment) :
    evaluate (fuel + 1) (.list []) env = some (.error .emptyList, env) :=
  rfl

/-- C2 counterexample: in `(a b)` with both names unbound, the reported
error is the unbound-name error for the function position `a`, not for
the operand `b`: the evaluator walks the list head first, so the
function-position error precedes any operand error, contradicting the
claimed operands-first order. -/
theorem c2_counterexample :
    evaluate 20 (.list [.atom (.ident "a"), .atom (.ident "b")]) mkEnv =
      some (.error (.notDefined "a"), mkEnv)
    ∧ mkEnv.lookup_var "a" = none ∧ mkEnv.lookup_var "b" = none :=
  ⟨rfl, rfl, rfl⟩

/-- C2 (amended): an application evaluates its elements left to right
with the function position first: an error in the function position
aborts the form before any operand runs, and once the head has produced a
value, an error while evaluating the operand tail is the one reported. -/
theorem c2_head_evaluated_first :
    (∀ fuel e es env env' err,
        evaluate fuel e env = some (.error err, env') →
        evaluate (fuel + 1) (.list (e :: es)) env =
          some (.error err, env'))
    ∧ (∀ fuel e es env v env1 err env2,
        evaluate fuel e env = some (.ok v, env1) →
        evalListWith (evaluate fuel) es env1 = some (.error err, env2) →
        evaluate (fuel + 1) (.list (e :: es)) env =
          some (.error err, env2)) := by
  constructor
  · intro fuel e es env env' err h
    rw [evaluate, evalListWith, h]
  · intro fuel e es env v env1 err env2 h1 h2
    rw [evaluate, evalListWith, h1]
    dsimp only
    rw [h2]

theorem c2_head_evaluated_first_witness :
    evaluate 5 (.atom (.ident "a")) mkEnv =
      some (.error (.notDefined "a"), mkEnv)
    ∧ evaluate (5 + 1)
        (.list [.atom (.ident "a"), .atom (.ident "b")]) mkEnv =
      some (.error (.notDefined "a"), mkEnv) :=
  ⟨rfl, c2_head_evaluated_first.1 5 (.atom (.ident "a"))
    [.atom (.ident "b")] mkEnv mkEnv (.notDefined "a") rfl⟩

end Yal


namespace Yal

/-! ## Pointwise view of the binding map -/

theorem varsGet_cons (k : String) (e : List RefVal)
    (rest : List (String × List RefVal)) (n : String) :
    varsGet ((k, e) :: rest) n = if k = n then some e else varsGet rest n :=
  rfl

theorem varsGet_varsEraseKey (vars : List (String × List RefVal))
    (n k : String) :
    varsGet (varsEraseKey vars n) k =
      if k = n then none else varsGet vars k := by
  induction vars with
  | nil => rw [varsEraseKey, varsGet]; split <;> rfl
  | cons p rest ih =>
    obtain ⟨k0, e0⟩ := p
    rw [varsEraseKey]
    by_cases h0 : k0 = n
    · subst h0
      rw [if_pos rfl, ih, varsGet_cons]
      by_cases hk : k = k0
      · rw [if_pos hk, if_pos hk]
      · rw [if_neg hk, if_neg hk, if_neg (fun h => hk h.symm)]
    · rw [if_neg h0, varsGet_cons, varsGet_cons, ih]
      by_cases hk0 : k0 = k
      · subst hk0
        rw [if_pos rfl, if_neg (fun h => h0 h), if_pos rfl]
      · rw [if_neg hk0, if_neg hk0]

theorem varsGet_varsSet (vars : List (String × List RefVal)) (n : String)
    (e : List RefVal) (k : String) :
    varsGet (varsSet vars n e) k =
      if k = n then some e else varsGet vars k := by
  rw [varsSet, varsGet_cons, varsGet_varsEraseKey]
  by_cases hk : k = n
  · rw [if_pos hk.symm, if_pos hk]
  · rw [if_neg (fun h => hk h.symm), if_neg hk, if_neg hk]

/-- Pointwise effect of `bind_var`: one binding pushed at the name, the
rest untouched. -/
theorem varsGet_bind_var (env : Environment) (n : String) (v : RefVal)
    (k : String) :
    varsGet (env.bind_var n v).vars k =
      if k = n then some (v :: (varsGet env.vars n).getD [])
      else varsGet env.vars k := by
  rw [Environment.bind_var]
  cases hg : varsGet env.vars n with
  | none => simp [varsGet_varsSet, hg]
  | some entry => simp [varsGet_varsSet, hg]

/-- The surviving entry after one pop: `none` when the entry empties. -/
def entryRest : List RefVal → Option (List RefVal)
  | [] => none
  | v :: rest => some (v :: rest)

/-- Pointwise effect of a successful `unbind_var` on a nonempty entry. -/
theorem unbind_var_spec (env : Environment) (n : String) (x : RefVal)
    (l : List RefVal) (hg : varsGet env.vars n = some (x :: l)) :
    ∃ env', env.unbind_var n = some (.ok env')
      ∧ env'.stack = env.stack ∧ env'.next_addr = env.next_addr
      ∧ ∀ k, varsGet env'.vars k =
          if k = n then entryRest l else varsGet env.vars k := by
  rw [Environment.unbind_var, hg]
  cases l with
  | nil =>
    refine ⟨_, rfl, rfl, rfl, ?_⟩
    intro k
    rw [varsRemove, varsGet_varsEraseKey, entryRest]
  | cons y rest =>
    refine ⟨_, rfl, rfl, rfl, ?_⟩
    intro k
    rw [varsGet_varsSet, entryRest]

end Yal

namespace Yal

/-- The cumulative binding map of the zip loop, as a function update. -/
def bindsFun : List String → List RefVal →
    (String → Option (List RefVal)) → String → Option (List RefVal)
  | [], _, g => g
  | _ :: _, [], g => g
  | n :: ns, v :: vs, g =>
    bindsFun ns vs (fun k => if k = n then some (v :: (g n).getD []) else g k)

/-- `bindArgs` acts on lookups exactly as `bindsFun`. -/
theorem varsGet_bindArgs :
    ∀ (ns : List String) (vs : List RefVal) (env : Environment) (k : String),
      varsGet (bindArgs ns vs env).vars k =
        bindsFun ns vs (fun j => varsGet env.vars j) k := by
  intro ns
  induction ns with
  | nil => intro vs env k; rw [bindArgs, bindsFun]
  | cons n ns ih =>
    intro vs env k
    cases vs with
    | nil => rw [bindArgs, bindsFun]
    | cons v vs =>
      rw [bindArgs, bindsFun, ih]
      congr 1
      funext j
      rw [varsGet_bind_var]

/-- A name not bound by the loop reads through to the base map. -/
theorem bindsFun_out :
    ∀ (ns : List String) (vs : List RefVal)
      (g : String → Option (List RefVal)) (k : String),
      k ∉ ns → bindsFun ns vs g k = g k := by
  intro ns
  induction ns with
  | nil => intro vs g k _; rw [bindsFun]
  | cons n ns ih =>
    intro vs g k hk
    cases vs with
    | nil => rw [bindsFun]
    | cons v vs =>
      simp only [List.mem_cons, not_or] at hk
      rw [bindsFun, ih _ _ _ hk.2]
      simp [hk.1]

/-- `bindsFun` only consults the base map at the key and at loop names. -/
theorem bindsFun_congr :
    ∀ (ns : List String) (vs : List RefVal)
      (g1 g2 : String → Option (List RefVal)) (k : String),
      (∀ j ∈ ns, g1 j = g2 j) → g1 k = g2 k →
      bindsFun ns vs g1 k = bindsFun ns vs g2 k := by
  intro ns
  induction ns with
  | nil => intro vs g1 g2 k _ hk; rw [bindsFun, bindsFun]; exact hk
  | cons n ns ih =>
    intro vs g1 g2 k hmem hk
    cases vs with
    | nil => rw [bindsFun, bindsFun]; exact hk
    | cons v vs =>
      rw [bindsFun, bindsFun]
      have hn : g1 n = g2 n := hmem n (List.mem_cons_self _ _)
      refine ih vs _ _ k ?_ ?_
      · intro j hj
        by_cases hjn : j = n
        · subst hjn; simp [hn]
        · simp only [hjn, if_false]
          exact hmem j (List.mem_cons_of_mem _ hj)
      · by_cases hkn : k = n
        · subst hkn; simp [hn]
        · simp only [hkn, if_false]
          exact hk

/-- Core of C1: after a body run that left the binding map where the
argument-binding loop put it, the unbind loop succeeds and restores every
lookup to its base-map value. -/
theorem unbind_binds_core :
    ∀ (names : List String) (vals : List RefVal) (envb : Environment)
      (g : String → Option (List RefVal)),
      names.Nodup → names.length = vals.length →
      (∀ k, varsGet envb.vars k = bindsFun names vals g k) →
      ∃ envf, unbindAll names envb = some (.ok (), envf)
        ∧ envf.stack = envb.stack ∧ envf.next_addr = envb.next_addr
        ∧ ∀ k, (varsGet envf.vars k).bind List.head? =
            (g k).bind List.head? := by
  intro names
  induction names with
  | nil =>
    intro vals envb g _ _ hpure
    refine ⟨envb, rfl, rfl, rfl, ?_⟩
    intro k
    rw [hpure k, bindsFun]
  | cons n ns ih =>
    intro vals envb g hnd hlenv hpure
    cases vals with
    | nil => cases hlenv
    | cons v vs =>
      have hnotin : n ∉ ns := (List.nodup_cons.mp hnd).1
      have hnd' : ns.Nodup := (List.nodup_cons.mp hnd).2
      have hlen' : ns.length = vs.length := by
        simpa using hlenv
      have hgn : varsGet envb.vars n = some (v :: (g n).getD []) := by
        rw [hpure n, bindsFun, bindsFun_out _ _ _ _ hnotin]
        simp
      obtain ⟨envb', hu, hs, ha, hpt⟩ := unbind_var_spec envb n _ _ hgn
      have hstep : ∀ k, varsGet envb'.vars k =
          bindsFun ns vs (fun j => if j = n then
            entryRest ((g n).getD []) else g j) k := by
        intro k
        by_cases hk : k = n
        · subst hk
          rw [hpt k, if_pos rfl, bindsFun_out _ _ _ _ hnotin, if_pos rfl]
        · rw [hpt k, if_neg hk, hpure k, bindsFun]
          refine bindsFun_congr ns vs _ _ k ?_ ?_
          · intro j hj
            have hjn : ¬ j = n := fun h => hnotin (h ▸ hj)
            simp [hjn]
          · simp [hk]
      obtain ⟨envf, hu2, hs2, ha2, hlook⟩ := ih vs envb' _ hnd' hlen' hstep
      refine ⟨envf, ?_, hs2.trans hs, ha2.trans ha, ?_⟩
      · rw [unbindAll, hu]
        dsimp only
        exact hu2
      · intro k
        rw [hlook k]
        by_cases hk : k = n
        · subst hk
          rw [if_pos rfl]
          cases hgn2 : g k with
          | none => rfl
          | some l =>
            cases l with
            | nil => rfl
            | cons x rest => rfl
        · rw [if_neg hk]

end Yal

namespace Yal

/-- C1 (amended): for a user-defined call with distinct parameter names
whose body evaluation succeeds and leaves the binding map exactly where
the parameter-binding loop put it, the call returns the body's value and
every lookup afterwards yields exactly what it yielded before the call.
The cleanup happens only on this success path: a failing body returns
before the unbind loop, and a binding the body adds under another name
(for example with `let`) is never removed — see the counterexample. -/
theorem c1_call_restores_bindings (fuel : Nat) (argNames : List String)
    (body : SExpr) (env envb : Environment) (r : RefVal)
    (hnd : argNames.Nodup)
    (hlen : argNames.length ≤ env.stack.length)
    (hbody : evaluate fuel body
      (bindArgs argNames (env.stack.take argNames.length).reverse
        { env with stack := env.stack.drop argNames.length }) =
      some (.ok r, envb))
    (hpure : ∀ k, varsGet envb.vars k =
      varsGet (bindArgs argNames (env.stack.take argNames.length).reverse
        { env with stack := env.stack.drop argNames.length }).vars k) :
    ∃ envf, call (evaluate fuel) (.userDefined argNames body) env =
        some (.ok r, envf)
      ∧ ∀ k, envf.lookup_var k = env.lookup_var k := by
  have hvlen : argNames.length =
      ((env.stack.take argNames.length).reverse).length := by
    simp [List.length_take, Nat.min_eq_left hlen]
  have hcore : ∀ k, varsGet envb.vars k =
      bindsFun argNames (env.stack.take argNames.length).reverse
        (fun j => varsGet env.vars j) k := by
    intro k
    rw [hpure k, varsGet_bindArgs]
  obtain ⟨envf, hu, _, _, hlook⟩ :=
    unbind_binds_core argNames _ envb _ hnd hvlen hcore
  refine ⟨envf, ?_, ?_⟩
  · rw [call, if_pos hlen]
    dsimp only
    rw [hbody]
    dsimp only
    rw [hu]
  · intro k
    rw [Environment.lookup_var, Environment.lookup_var]
    exact hlook k

/-- Environment of the C1 witness: the seeded environment with one value
on the shared stack. -/
def c1Env : Environment := { mkEnv with stack := [.borrowed .sTrue] }

/-- The bound-parameters environment of the C1 witness. -/
def c1Mid : Environment :=
  bindArgs ["x"] (c1Env.stack.take 1).reverse
    { c1Env with stack := c1Env.stack.drop 1 }

theorem c1_call_restores_bindings_witness :
    (["x"] : List String).Nodup
    ∧ ∃ envf, call (evaluate 5) (.userDefined ["x"] (.atom (.ident "x")))
        c1Env = some (.ok (.borrowed .sTrue), envf)
      ∧ ∀ k, envf.lookup_var k = c1Env.lookup_var k :=
  ⟨by decide,
    c1_call_restores_bindings 5 ["x"] (.atom (.ident "x")) c1Env c1Mid
      (.borrowed .sTrue) (by decide) (by decide) rfl (fun k => rfl)⟩

/-- Builder: an identifier expression. -/
def identE (s : String) : SExpr := .atom (.ident s)

/-- Builder: a numeric literal expression. -/
def numberE (q : ℚ) : SExpr := .atom (.number (.num q))

/-- Builder: a quoted expression. -/
def quoteE (e : SExpr) : SExpr := .atom (.quote e)

/-- The C1 counterexample program `((fn '(x) '(let 'y 5)) 1)`: the body
of the called function binds `y` via `let`. -/
def c1LeakProg : SExpr :=
  .list [.list [identE "fn", quoteE (.list [identE "x"]),
    quoteE (.list [identE "let", quoteE (identE "y"), numberE 5])],
    numberE 1]

/-- The run of the C1 counterexample in the seeded environment. -/
def c1LeakRun : Except Err RefVal × Environment :=
  (evaluate 20 c1LeakProg mkEnv).getD (.error .emptyList, mkEnv)

/-- C1 counterexample: the call `((fn '(x) '(let 'y 5)) 1)` succeeds, yet
the binding of `y` introduced by the `let` inside the body is still
visible after the call returns — looking up `y` no longer yields what it
yielded before the call (nothing), so not every binding introduced while
evaluating a call is removed when it returns. -/
theorem c1_counterexample :
    (match c1LeakRun.1 with | .ok _ => true | .error _ => false) = true
    ∧ mkEnv.lookup_var "y" = none
    ∧ c1LeakRun.2.lookup_var "y" =
        some (.owned 19 (.number (.num 5))) :=
  ⟨rfl, rfl, rfl⟩

end Yal

namespace Yal

/-- The dereferenced value a run produced, if it succeeded. -/
def resultValue : EvalRes → Option Value
  | some (.ok v, _) => some v.deref
  | _ => none

/-- The reference a run produced, if it succeeded. -/
def resultRef : EvalRes → Option RefVal
  | some (.ok v, _) => some v
  | _ => none

/-- The error a run produced, if it failed. -/
def resultError : EvalRes → Option Err
  | some (.error e, _) => some e
  | _ => none

/-- The C5 counterexample program `(if nil 'yes 'no)`. -/
def c5NilProg : SExpr :=
  .list [identE "if", identE "nil", quoteE (identE "yes"),
    quoteE (identE "no")]

/-- C5 counterexample: `main.rs` never binds `nil` (nor `t`), so in the
seeded environment `(if nil 'yes 'no)` is an unbound-name error for
`nil`, not the symbol `no`; likewise `t` is unbound. -/
theorem c5_counterexample :
    evaluate 20 c5NilProg mkEnv = some (.error (.notDefined "nil"), mkEnv)
    ∧ mkEnv.lookup_var "nil" = none
    ∧ mkEnv.lookup_var "t" = none :=
  ⟨rfl, rfl, rfl⟩

/-- C5 program with a sentinel condition: `(if (eq 1 2) ''yes ''no)`. -/
def c5FalseProg : SExpr :=
  .list [identE "if", .list [identE "eq", numberE 1, numberE 2],
    quoteE (quoteE (identE "yes")), quoteE (quoteE (identE "no"))]

/-- C5 program with a true condition: `(if (eq 1 1) ''yes ''no)`. -/
def c5TrueProg : SExpr :=
  .list [identE "if", .list [identE "eq", numberE 1, numberE 1],
    quoteE (quoteE (identE "yes")), quoteE (quoteE (identE "no"))]

/-- C5 program with non-quoted branches: `(if (eq 1 1) 1 2)`. -/
def c5BadProg : SExpr :=
  .list [identE "if", .list [identE "eq", numberE 1, numberE 1],
    numberE 1, numberE 2]

/-- C5 (amended): `if` inspects its (already evaluated) first operand and
evaluates the quoted else payload exactly when that operand is a borrow
of the `FALSE` or `NIL` static (the sentinels produced by `eq`); any
owned value — and the `TRUE` static — selects the quoted then payload; a
non-quoted branch is an error.  Since the branches pass through the
generic evaluator once, the branch operands must be doubly quoted to
return a symbol: `(if (eq 1 2) ''yes ''no)` yields the symbol `no`,
`(if (eq 1 1) ''yes ''no)` yields `yes`, and `(if (eq 1 1) 1 2)` is the
non-quoted-branch error. -/
theorem c5_if_sentinel_dispatch :
    (∀ (ev : SExpr → Environment → EvalRes) (env : Environment)
        (c t e : RefVal) (rest : List RefVal) (tq eq2 : SExpr),
        env.stack = e :: t :: c :: rest →
        t.deref = .quote tq → e.deref = .quote eq2 →
        (c = .borrowed .sFalse ∨ c = .borrowed .sNil →
          if_impl ev env = ev eq2 { env with stack := rest })
        ∧ (∀ a v, c = .owned a v →
          if_impl ev env = ev tq { env with stack := rest })
        ∧ (c = .borrowed .sTrue →
          if_impl ev env = ev tq { env with stack := rest }))
    ∧ resultValue (evaluate 20 c5FalseProg mkEnv) =
        some (.quote (.atom (.ident "no")))
    ∧ resultValue (evaluate 20 c5TrueProg mkEnv) =
        some (.quote (.atom (.ident "yes")))
    ∧ resultError (evaluate 20 c5BadProg mkEnv) =
        some (.thenNotQuoted (.owned 16 (.number (.num 1)))) := by
  refine ⟨?_, rfl, rfl, rfl⟩
  intro ev env c t e rest tq eq2 hstack ht he
  simp only [if_impl, Environment.pop_stack, hstack]
  rw [ht]
  dsimp only
  rw [he]
  dsimp only
  refine ⟨?_, ?_, ?_⟩
  · rintro (hc | hc) <;> subst hc <;> rfl
  · rintro a v hc; subst hc; rfl
  · rintro hc; subst hc; rfl

/-- Stack for the C5 witness: else, then, condition (the false static). -/
def c5WEnv : Environment :=
  { mkEnv with stack := [.owned 1 (.quote (identE "E")),
    .owned 0 (.quote (identE "T")), .borrowed .sFalse] }

theorem c5_if_sentinel_dispatch_witness :
    if_impl (evaluate 5) c5WEnv =
      evaluate 5 (identE "E") { c5WEnv with stack := [] } :=
  ((c5_if_sentinel_dispatch.1 (evaluate 5) c5WEnv (.borrowed .sFalse)
    (.owned 0 (.quote (identE "T"))) (.owned 1 (.quote (identE "E")))
    [] (identE "T") (identE "E") rfl rfl rfl).1 (Or.inl rfl))

/-- The C6 counterexample program `(car (cons 1 2))`. -/
def c6BadProg : SExpr :=
  .list [identE "car", .list [identE "cons", numberE 1, numberE 2]]

/-- C6 counterexample: `cons` demands a quoted head and a quoted-list
tail, so `(cons 1 2)` — and hence `(car (cons 1 2))` — is an error
("expected a quoted expression" for the evaluated `Number 1`), not the
pair the claim promises; `cons` applied to two arbitrary operands does
not always succeed. -/
theorem c6_counterexample :
    resultError (evaluate 20 c6BadProg mkEnv) =
      some (.expectedQuote (.owned 14 (.number (.num 1)))) :=
  rfl

/-- The C6 programs on quoted operands. -/
def c6CarProg : SExpr :=
  .list [identE "car", .list [identE "cons", quoteE (numberE 1),
    quoteE (.list [numberE 2])]]

/-- `(cdr (cons '1 '(2)))`. -/
def c6CdrProg : SExpr :=
  .list [identE "cdr", .list [identE "cons", quoteE (numberE 1),
    quoteE (.list [numberE 2])]]

/-- C6 (amended): `cons` succeeds exactly on a quoted head and a quoted
list tail, prepending the head to the list and never failing there —
`(car (cons '1 '(2)))` yields the quoted `1` and `(cdr (cons '1 '(2)))`
the quoted list `(2)`; on any other operands it errors (counterexample). -/
theorem c6_cons_on_quoted_operands :
    (∀ (env : Environment) (t h : RefVal) (rest : List RefVal)
        (hq : SExpr) (tl : List SExpr),
        env.stack = t :: h :: rest →
        h.deref = .quote hq → t.deref = .quote (.list tl) →
        cons_impl env =
          some (.ok (.owned env.next_addr (.quote (.list (hq :: tl)))),
            { env with stack := rest, next_addr := env.next_addr + 1 }))
    ∧ resultValue (evaluate 20 c6CarProg mkEnv) =
        some (.quote (.atom (.number (.num 1))))
    ∧ resultValue (evaluate 20 c6CdrProg mkEnv) =
        some (.quote (.list [.atom (.number (.num 2))])) := by
  refine ⟨?_, rfl, rfl⟩
  intro env t h rest hq tl hstack hh ht
  simp only [cons_impl, Environment.pop_stack, hstack]
  rw [hh]
  dsimp only
  rw [ht]
  rfl

/-- Stack for the C6 witness: quoted list `()` and quoted head `H`. -/
def c6WEnv : Environment :=
  { mkEnv with stack := [.owned 1 (.quote (.list [])),
    .owned 0 (.quote (identE "H"))] }

theorem c6_cons_on_quoted_operands_witness :
    cons_impl c6WEnv =
      some (.ok (.owned c6WEnv.next_addr (.quote (.list [identE "H"]))),
        { c6WEnv with stack := [], next_addr := c6WEnv.next_addr + 1 }) :=
  c6_cons_on_quoted_operands.1 c6WEnv (.owned 1 (.quote (.list [])))
    (.owned 0 (.quote (identE "H"))) [] (identE "H") [] rfl rfl rfl

end Yal

namespace Yal

theorem f64Beq_symm (a b : F64) : F64.beq a b = F64.beq b a := by
  cases a <;> cases b <;> simp [F64.beq, eq_comm]

theorem f64Beq_refl {a : F64} (h : a.isNan = false) :
    F64.beq a a = true := by
  cases a <;> simp [F64.beq, F64.isNan] at h ⊢

mutual
theorem atomBeq_symm : ∀ (a b : Atom), Atom.beq a b = Atom.beq b a
  | .string x, .string y => by simp [Atom.beq, eq_comm]
  | .number x, .number y => by
    rw [Atom.beq, Atom.beq, f64Beq_symm]
  | .quote x, .quote y => by
    rw [Atom.beq, Atom.beq, sexprBeq_symm]
  | .ident x, .ident y => by simp [Atom.beq, eq_comm]
  | .string _, .number _ => rfl
  | .string _, .quote _ => rfl
  | .string _, .ident _ => rfl
  | .number _, .string _ => rfl
  | .number _, .quote _ => rfl
  | .number _, .ident _ => rfl
  | .quote _, .string _ => rfl
  | .quote _, .number _ => rfl
  | .quote _, .ident _ => rfl
  | .ident _, .string _ => rfl
  | .ident _, .number _ => rfl
  | .ident _, .quote _ => rfl

theorem sexprBeq_symm : ∀ (a b : SExpr), SExpr.beq a b = SExpr.beq b a
  | .atom x, .atom y => by rw [SExpr.beq, SExpr.beq, atomBeq_symm]
  | .list x, .list y => by rw [SExpr.beq, SExpr.beq, SExpr.listBeq_symm]
  | .atom _, .list _ => rfl
  | .list _, .atom _ => rfl

theorem SExpr.listBeq_symm : ∀ (a b : List SExpr),
    SExpr.listBeq a b = SExpr.listBeq b a
  | [], [] => rfl
  | x :: xs, y :: ys => by
    rw [SExpr.listBeq, SExpr.listBeq, sexprBeq_symm, SExpr.listBeq_symm]
  | [], _ :: _ => rfl
  | _ :: _, [] => rfl
end

mutual
theorem atomBeq_refl : ∀ (a : Atom), a.nanFree = true → Atom.beq a a = true
  | .string x, _ => by simp [Atom.beq]
  | .number x, h => by
    rw [Atom.beq]
    exact f64Beq_refl (by simpa [Atom.nanFree] using h)
  | .quote x, h => by
    rw [Atom.beq]
    exact sexprBeq_refl x (by simpa [Atom.nanFree] using h)
  | .ident x, _ => by simp [Atom.beq]

theorem sexprBeq_refl : ∀ (e : SExpr), e.nanFree = true →
    SExpr.beq e e = true
  | .atom a, h => by
    rw [SExpr.beq]
    exact atomBeq_refl a (by simpa [SExpr.nanFree] using h)
  | .list es, h => by
    rw [SExpr.beq]
    exact SExpr.listBeq_refl es (by simpa [SExpr.nanFree] using h)

theorem SExpr.listBeq_refl : ∀ (es : List SExpr),
    SExpr.listNanFree es = true → SExpr.listBeq es es = true
  | [], _ => rfl
  | e :: es, h => by
    rw [SExpr.listBeq]
    have h2 := (Bool.and_eq_true _ _).mp (by simpa [SExpr.listNanFree] using h)
    rw [sexprBeq_refl e h2.1, SExpr.listBeq_refl es h2.2]
    rfl
end

theorem RefVal.addrEq_symm (a b : RefVal) :
    RefVal.addrEq a b = RefVal.addrEq b a := by
  cases a <;> cases b <;> simp [RefVal.addrEq, eq_comm]

/-- Values whose `eq`-comparison with themselves is reflexive: non-`nan`
numbers, strings, and `nan`-free quotes. -/
def eqReflOkB : Value → Bool
  | .number n => !n.isNan
  | .string _ => true
  | .quote q => SExpr.nanFree q
  | .function _ => false

/-- Program producing two `nan` values and comparing them:
`(eq (/ 0 0) (/ 0 0))`. -/
def c9NanProg : SExpr :=
  .list [identE "eq", .list [identE "/", numberE 0, numberE 0],
    .list [identE "/", numberE 0, numberE 0]]

/-- C9 counterexample: `eq` is not reflexive on every Number — the IEEE
`nan` value (constructible as `(/ 0 0)`) compares unequal to itself, so
`(eq (/ 0 0) (/ 0 0))` yields the false sentinel. -/
theorem c9_counterexample :
    eqVal (.owned 0 (.number .nan)) (.owned 0 (.number .nan)) = false
    ∧ resultRef (evaluate 20 c9NanProg mkEnv) = some (.borrowed .sFalse) :=
  ⟨rfl, rfl⟩

/-- Program building two user functions with identical source and
comparing them: `(eq (fn '(x) ''x) (fn '(x) ''x))`. -/
def c9FnProg : SExpr :=
  .list [identE "eq",
    .list [identE "fn", quoteE (.list [identE "x"]),
      quoteE (quoteE (identE "x"))],
    .list [identE "fn", quoteE (.list [identE "x"]),
      quoteE (quoteE (identE "x"))]]

/-- C9 (amended): `eq` is reflexive on non-`nan` Numbers, Strings and
`nan`-free Quotes, and symmetric on all values; two independently
allocated Functions are never `eq`, identical source or not — in
particular `(eq (fn '(x) ''x) (fn '(x) ''x))` yields the false
sentinel. -/
theorem c9_eq_laws :
    (∀ v : RefVal, eqReflOkB v.deref = true → eqVal v v = true)
    ∧ (∀ a b : RefVal, eqVal a b = eqVal b a)
    ∧ (∀ (a1 a2 : Nat) (f1 f2 : Function), a1 ≠ a2 →
        eqVal (.owned a1 (.function f1)) (.owned a2 (.function f2)) = false)
    ∧ resultRef (evaluate 20 c9FnProg mkEnv) = some (.borrowed .sFalse) := by
  refine ⟨?_, ?_, ?_, rfl⟩
  · intro v hv
    rw [eqVal]
    cases hd : v.deref with
    | number n =>
      rw [hd] at hv
      exact f64Beq_refl (by simpa [eqReflOkB] using hv)
    | string s => simp
    | quote q =>
      rw [hd] at hv
      exact sexprBeq_refl q (by simpa [eqReflOkB] using hv)
    | function f => rw [hd] at hv; simp [eqReflOkB] at hv
  · intro a b
    rw [eqVal, eqVal]
    cases hda : a.deref <;> cases hdb : b.deref <;>
      simp [eq_comm, f64Beq_symm, sexprBeq_symm, RefVal.addrEq_symm]
  · intro a1 a2 f1 f2 hne
    rw [eqVal]
    simp [RefVal.deref, RefVal.addrEq, hne]

theorem c9_eq_laws_witness :
    (eqReflOkB (RefVal.owned 0 (.string "s")).deref = true
      ∧ eqVal (.owned 0 (.string "s")) (.owned 0 (.string "s")) = true)
    ∧ ((0 : Nat) ≠ 1
      ∧ eqVal (.owned 0 (.function (.userDefined [] (identE "x"))))
          (.owned 1 (.function (.userDefined [] (identE "x")))) = false) :=
  ⟨⟨rfl, c9_eq_laws.1 (.owned 0 (.string "s")) rfl⟩,
    ⟨by decide, c9_eq_laws.2.2.1 0 1 (.userDefined [] (identE "x"))
      (.userDefined [] (identE "x")) (by decide)⟩⟩

end Yal

namespace Yal

/-! ## Reader (`reader.rs`) and printer (`ast.rs` `Display`)

The committed `reader.rs` targets an older AST shape (`SExpr::Cons` over
`Atom`s with a `Nil`), absent from the committed `ast.rs`; its list
assembly `Cons(quote e1, quote (Cons(quote e2, ...)))` encodes exactly
the parsed element sequence, which the committed `ast.rs` represents as
`SExpr::List` — the model produces that `List` form directly.  The
tokenizer is translated verbatim.  `ParenChars` masks an unescaped `)`
at depth zero as end-of-stream; since every scanning loop runs at depth
zero of its own (sub-)reader, the model expresses the mask by treating a
leading `)` as end-of-input in `parse_sexpr` and as the list terminator
in the `parse_sexprs` loop; characters inside a string literal are read
unmasked, as under the scanner's `in_str` flag.  Parse errors carry a
byte offset in the source, rendered later as line:column; the model
keeps the error kind and drops the position.  Rust's Unicode
`is_alphabetic` / `is_alphanumeric` are modelled by the ASCII
`Char.isAlpha` / `Char.isAlphanum`. -/

/-- The `IDENT_CHARS` of the reader. -/
def identChar (c : Char) : Bool :=
  c == '_' || c == '+' || c == '-' || c == '/' || c == '*' || c == '=' ||
    c == '?'

/-- Parse errors, by kind (source positions not modelled). -/
inductive PErr where
  | unexpectedWhitespace
  | unexpectedChar (c : Char)
  | numberFormat (tok : String)
  | expectedClosingParen
  | unexpectedEndOfInput
deriving DecidableEq

/-- The string-literal scan loop of `parse_atom`: raw span up to the
unescaped closing quote (a backslash always consumes the following
character); the source silently accepts an unterminated string, the loop
ending at end of input. -/
def scanString : List Char → (List Char × List Char)
  | [] => ([], [])
  | '"' :: rest => ([], rest)
  | '\\' :: [] => (['\\'], [])
  | '\\' :: c :: rest =>
    let (s, r) := scanString rest
    ('\\' :: c :: s, r)
  | c :: rest =>
    let (s, r) := scanString rest
    (c :: s, r)

/-- The numeric-token loop of `parse_atom`, with its `read_dot` flag.
The break condition tests `!is_digit` first, so the loop in fact stops at
the first `.` (the flag is updated but can never reject a second dot):
a fractional literal is never consumed past its integer part. -/
def scanNumber : Bool → List Char → (List Char × List Char)
  | _, [] => ([], [])
  | readDot, c :: rest =>
    let readDot2 := if c == '.' && !readDot then true else readDot
    if !c.isDigit || (c == '.' && readDot2) then ([], c :: rest)
    else
      let (t, r) := scanNumber readDot2 rest
      (c :: t, r)

/-- Decimal value of a digit string. -/
def digitsToNat (l : List Char) : Nat :=
  l.foldl (fun acc c => acc * 10 + (c.toNat - 48)) 0

/-- `str::parse::<f64>` restricted to the tokens the scanner produces
(digit strings, exact as integers; a dot never survives the scan, so the
fractional and malformed cases are unreachable). -/
def parseF64 (s : String) : Option F64 :=
  if !s.data.isEmpty && s.data.all Char.isDigit then
    some (.num (digitsToNat s.data))
  else none

/-- The `\n`, `\r`, `\0` escape replacements of the string branch. -/
def decodeEscapes (s : String) : String :=
  ((s.replace "\\n" "\n").replace "\\r" "\x00").replace "\\0" "\x00"

/-- `reader.rs` `parse_atom`, parameterised by the expression parser used
for the quote branch. -/
def parseAtomWith
    (ps : List Char → Option (Except PErr (SExpr × List Char))) :
    List Char → Option (Except PErr (Atom × List Char))
  | [] => some (.error .unexpectedEndOfInput)
  | c :: rest =>
    if c == '"' then
      let (content, r) := scanString rest
      some (.ok (.string (decodeEscapes (String.mk content)), r))
    else if c == '\'' then
      match ps rest with
      | none => none
      | some (.error e) => some (.error e)
      | some (.ok (e, r)) => some (.ok (.quote e, r))
    else if c.isDigit then
      let (tok, r) := scanNumber false (c :: rest)
      match parseF64 (String.mk tok) with
      | some n => some (.ok (.number n, r))
      | none => some (.error (.numberFormat (String.mk tok)))
    else if c.isWhitespace then some (.error .unexpectedWhitespace)
    else if c.isAlpha || identChar c then
      some (.ok (.ident (String.mk ((c :: rest).takeWhile
          (fun d => d.isAlphanum || identChar d))),
        (c :: rest).dropWhile (fun d => d.isAlphanum || identChar d)))
    else some (.error (.unexpectedChar c))

/-- The `parse_sexprs` loop, parameterised by the expression parser: skip
whitespace, stop at end of stream (the masked `)` included), else parse
one expression and continue. -/
def parseSExprsWith
    (ps : List Char → Option (Except PErr (SExpr × List Char))) :
    Nat → List Char → Option (Except PErr (List SExpr × List Char))
  | 0, _ => none
  | fuel + 1, cs =>
    match cs.dropWhile Char.isWhitespace with
    | [] => some (.ok ([], []))
    | ')' :: rest => some (.ok ([], ')' :: rest))
    | c :: rest =>
      match ps (c :: rest) with
      | none => none
      | some (.error e) => some (.error e)
      | some (.ok (e, r)) =>
        match parseSExprsWith ps fuel r with
        | none => none
        | some (.error e2) => some (.error e2)
        | some (.ok (es, r2)) => some (.ok (e :: es, r2))

/-- `reader.rs` `parse_sexpr` with a recursion-depth fuel: a list via the
sub-reader (whose masked end must be the closing paren), a comment
skipped to the line end (stopping early at a masked `)`), a leading
masked `)` or end of input as an error, anything else an atom. -/
def parse_sexpr : Nat → List Char → Option (Except PErr (SExpr × List Char))
  | 0, _ => none
  | fuel + 1, cs =>
    match cs with
    | [] => some (.error .unexpectedEndOfInput)
    | c :: rest =>
      if c == '(' then
        match parseSExprsWith (parse_sexpr fuel) fuel rest with
        | none => none
        | some (.error e) => some (.error e)
        | some (.ok (es, r)) =>
          match r with
          | ')' :: r2 => some (.ok (.list es, r2))
          | _ => some (.error .expectedClosingParen)
      else if c == ')' then some (.error .unexpectedEndOfInput)
      else if c == ';' then
        parse_sexpr fuel ((rest.dropWhile
          (fun d => !(d == '\n' || d == ')'))).dropWhile Char.isWhitespace)
      else
        match parseAtomWith (parse_sexpr fuel) (c :: rest) with
        | none => none
        | some (.error e) => some (.error e)
        | some (.ok (a, r)) => some (.ok (.atom a, r))

/-- `reader.rs` `parse_atom` with the tied recursion. -/
def parse_atom (fuel : Nat) (cs : List Char) :
    Option (Except PErr (Atom × List Char)) :=
  parseAtomWith (parse_sexpr fuel) cs

/-- `reader.rs` `parse_sexprs` (the top-level form loop). -/
def parse_sexprs (fuel : Nat) (cs : List Char) :
    Option (Except PErr (List SExpr × List Char)) :=
  parseSExprsWith (parse_sexpr fuel) fuel cs

/-- Rust `Display` for `f64`, restricted to what parsed programs hold:
integral values render with no decimal part (non-integral rationals
cannot be produced by the reader; they render as num/den here). -/
def F64.display : F64 → String
  | .num q =>
    if q.den = 1 then toString q.num
    else toString q.num ++ "/" ++ toString q.den
  | .nan => "NaN"
  | .inf => "inf"
  | .negInf => "-inf"

mutual
/-- `ast.rs` `Display for Atom`: strings and quotes render with no
delimiters. -/
def Atom.display : Atom → String
  | .string s => s
  | .number n => F64.display n
  | .quote q => SExpr.display q
  | .ident i => i

/-- `ast.rs` `Display for SExpr`: elements joined by a comma-space after
the opening parenthesis — and no closing parenthesis is ever written. -/
def SExpr.display : SExpr → String
  | .atom a => Atom.display a
  | .list [] => "()"
  | .list (x :: xs) => "(" ++ SExpr.display x ++ SExpr.displayTail xs

/-- The tail writes of the `Display` loop. -/
def SExpr.displayTail : List SExpr → String
  | [] => ""
  | x :: xs => ", " ++ SExpr.display x ++ SExpr.displayTail xs
end

end Yal

namespace Yal

/-- C8: the numeric-token loop breaks at the first decimal point despite
its `read_dot` flag (`!is_digit` is tested first, so the flag never gets
to reject a second dot and the first dot already stops the scan): `3.14`
is tokenised as the Number `3` with `.14` left over, and the whole form
is the parse error for the unexpected `.` — no fractional literal is
ever read as a single Number atom, against the grammar
`digit+ ('.' digit+)?` the code's own flag logic aims for. -/
theorem c8_fractional_literal_never_parses :
    scanNumber false "3.14".data = (['3'], ['.', '1', '4'])
    ∧ parse_atom 10 "3.14".data =
        some (.ok (.number (.num 3), ['.', '1', '4']))
    ∧ parse_sexprs 20 "3.14".data = some (.error (.unexpectedChar '.')) :=
  ⟨rfl, rfl, rfl⟩

/-- C7 counterexample: `(a b)` parses, but its rendering is `(a, b` —
comma separator, no closing parenthesis — and re-parsing that rendering
is a parse error, not a structurally equal tree. -/
theorem c7_counterexample :
    parse_sexpr 20 "(a b)".data =
      some (.ok (.list [identE "a", identE "b"], []))
    ∧ SExpr.display (.list [identE "a", identE "b"]) = "(a, b"
    ∧ parse_sexpr 20 (SExpr.display (.list [identE "a", identE "b"])).data =
        some (.error (.unexpectedChar ',')) :=
  ⟨rfl, rfl, rfl⟩

end Yal

namespace Yal

theorem identStart_ne {c : Char} (h : (c.isAlpha || identChar c) = true)
    {d : Char} (hd : (d.isAlpha || identChar d) = false) : (c == d) = false := by
  cases hbe : c == d with
  | false => rfl
  | true =>
    have hcd : c = d := eq_of_beq hbe
    subst hcd
    rw [h] at hd
    cases hd

theorem alpha_not_digit {c : Char} (ha : c.isAlpha = true) :
    c.isDigit = false := by
  cases hdig : c.isDigit with
  | false => rfl
  | true =>
    exfalso
    simp [Char.isDigit] at hdig
    obtain ⟨_, b2⟩ := hdig
    have b2n : c.val.toNat ≤ (57 : UInt32).toNat := b2
    rw [show (57 : UInt32).toNat = 57 from rfl] at b2n
    simp [Char.isAlpha, Char.isUpper, Char.isLower] at ha
    rcases ha with ⟨a1, _⟩ | ⟨a1, _⟩
    · have a1n : (65 : UInt32).toNat ≤ c.val.toNat := a1
      rw [show (65 : UInt32).toNat = 65 from rfl] at a1n
      omega
    · have a1n : (97 : UInt32).toNat ≤ c.val.toNat := a1
      rw [show (97 : UInt32).toNat = 97 from rfl] at a1n
      omega

theorem identStart_not_digit {c : Char}
    (h : (c.isAlpha || identChar c) = true) : c.isDigit = false := by
  rcases (Bool.or_eq_true _ _).mp h with ha | hi
  · exact alpha_not_digit ha
  · simp [identChar] at hi
    rcases hi with ((((((h1|h1)|h1)|h1)|h1)|h1)|h1) <;> subst h1 <;> rfl

theorem identStart_not_ws {c : Char}
    (h : (c.isAlpha || identChar c) = true) : c.isWhitespace = false := by
  cases hws : c.isWhitespace with
  | false => rfl
  | true =>
    exfalso
    simp [Char.isWhitespace] at hws
    rcases hws with ((h1|h1)|h1)|h1 <;> subst h1 <;>
      exact absurd h (by decide)

theorem identCont_of_start {c : Char}
    (h : (c.isAlpha || identChar c) = true) :
    (c.isAlphanum || identChar c) = true := by
  rcases (Bool.or_eq_true _ _).mp h with ha | hi
  · simp [Char.isAlphanum, ha]
  · simp [hi]

theorem takeWhile_eq_self_of_all {α} (p : α → Bool) :
    ∀ l : List α, (∀ x ∈ l, p x = true) → l.takeWhile p = l := by
  intro l
  induction l with
  | nil => intro _; rfl
  | cons x xs ih =>
    intro hall
    rw [List.takeWhile_cons, hall x (List.mem_cons_self _ _)]
    simp [ih (fun y hy => hall y (List.mem_cons_of_mem _ hy))]

theorem dropWhile_eq_nil_of_all {α} (p : α → Bool) :
    ∀ l : List α, (∀ x ∈ l, p x = true) → l.dropWhile p = [] := by
  intro l
  induction l with
  | nil => intro _; rfl
  | cons x xs ih =>
    intro hall
    rw [List.dropWhile_cons, hall x (List.mem_cons_self _ _)]
    simp [ih (fun y hy => hall y (List.mem_cons_of_mem _ hy))]

/-- A nonempty identifier token: a letter or symbol character followed by
alphanumeric or symbol characters (exactly what the reader's ident branch
can produce). -/
def validIdentB (s : String) : Bool :=
  match s.data with
  | [] => false
  | c :: cs =>
    (c.isAlpha || identChar c) &&
      (c :: cs).all (fun d => d.isAlphanum || identChar d)

/-- C7 (amended): the rendering of an identifier atom re-parses to the
same tree (identifiers print as themselves); but the round trip fails in
general — the printer joins list elements with a comma, omits the
closing parenthesis and drops quote and string delimiters, so rendering
a parsed non-empty list yields text that does not re-parse (see the
counterexample). -/
theorem c7_ident_atoms_round_trip (fuel : Nat) (s : String)
    (h : validIdentB s = true) :
    parse_sexpr (fuel + 1) (SExpr.display (.atom (.ident s))).data =
      some (.ok (.atom (.ident s), [])) := by
  have hdisp : (SExpr.display (.atom (.ident s))).data = s.data := rfl
  rw [hdisp]
  rw [validIdentB] at h
  rcases hs : s.data with _ | ⟨c, cs⟩
  · rw [hs] at h; cases h
  · rw [hs] at h
    obtain ⟨h1, h2⟩ := (Bool.and_eq_true _ _).mp h
    have hall : ∀ x ∈ c :: cs, (x.isAlphanum || identChar x) = true :=
      fun x hx => (List.all_eq_true.mp h2) x hx
    have hmk : String.mk (c :: cs) = s := by rw [← hs]
    simp only [parse_sexpr, parseAtomWith,
      identStart_ne h1 (d := '(') (by decide),
      identStart_ne h1 (d := ')') (by decide),
      identStart_ne h1 (d := ';') (by decide),
      identStart_ne h1 (d := '"') (by decide),
      identStart_ne h1 (d := '\'') (by decide),
      identStart_not_digit h1, identStart_not_ws h1, h1,
      Bool.false_eq_true, if_false, if_true]
    rw [takeWhile_eq_self_of_all _ _ hall, dropWhile_eq_nil_of_all _ _ hall,
      hmk]

end Yal

namespace Yal

theorem c7_ident_atoms_round_trip_witness :
    validIdentB "a" = true
    ∧ parse_sexpr (19 + 1) (SExpr.display (.atom (.ident "a"))).data =
        some (.ok (.atom (.ident "a"), [])) :=
  ⟨rfl, c7_ident_atoms_round_trip 19 "a" rfl⟩

end Yal
